import Mathlib

/-!
Verification development for the akahu-firefly reconciliation engine.

The definitions below are shallow embeddings of the TypeScript sources:
`src/lib/firefly.ts` (the `Transactions` store and merger),
`src/lib/accounts.ts` (the `Accounts` store),
`src/lib/firefly-import.ts` (`mergeAccounts`),
`src/lib/firefly-export.ts` (kind table, payload building, diff emitter),
and `src/lib/akahu-import.ts` (`findAccount`, transfer fusion).

JavaScript `Map`s are modelled as insertion-ordered association lists,
JavaScript `Set`s as insertion-ordered duplicate-free lists, exact decimals
(`Big`) as rationals, and `Date` values as a record carrying the epoch
millisecond instant together with the local-time hour and minute fields
read by `getHours` and `getMinutes`.  Thrown exceptions are modelled with
`Except` or with an explicit error component.
-/

namespace AkahuFirefly

/-! ## JavaScript Map and Set primitives -/

/-- Lookup in a JavaScript `Map` modelled as an association list
(`Map.prototype.get`). -/
def mapGet {κ α : Type} [DecidableEq κ] : List (κ × α) → κ → Option α
  | [], _ => none
  | (k, v) :: rest, key => if k = key then some v else mapGet rest key

/-- Update in a JavaScript `Map` (`Map.prototype.set`): replaces the value in
place when the key is present, appends otherwise, preserving insertion
order. -/
def mapSet {κ α : Type} [DecidableEq κ] : List (κ × α) → κ → α → List (κ × α)
  | [], key, v => [(key, v)]
  | (k, w) :: rest, key, v =>
      if k = key then (k, v) :: rest else (k, w) :: mapSet rest key v

/-- Deletion from a JavaScript `Map` (`Map.prototype.delete`). -/
def mapDelete {κ α : Type} [DecidableEq κ] : List (κ × α) → κ → List (κ × α)
  | [], _ => []
  | (k, v) :: rest, key =>
      if k = key then rest else (k, v) :: mapDelete rest key

/-- Construction `new Set([...a, ...b])`: keeps the first occurrence of every
element, in insertion order. -/
def setUnion (a b : List String) : List String :=
  (a ++ b).foldl (fun acc x => if x ∈ acc then acc else acc ++ [x]) []

/-! ## JavaScript string primitives

JavaScript string methods are modelled structurally on character lists so
that every definition is executable by the kernel. -/

/-- Embedding of `String.prototype.trim`: drops leading and trailing whitespace. -/
def jsTrim (s : String) : String :=
  ⟨(((s.data.dropWhile Char.isWhitespace).reverse.dropWhile Char.isWhitespace).reverse)⟩

/-- Embedding of `String.prototype.toLowerCase` (character-wise lowering). -/
def jsLower (s : String) : String :=
  ⟨s.data.map Char.toLower⟩

/-- Consume a literal character sequence from the head of a list. -/
def dropLit : List Char → List Char → Option (List Char)
  | [], cs => some cs
  | _ :: _, [] => none
  | l :: ls, c :: cs => if c = l then dropLit ls cs else none

/-- Whether the pattern occurs anywhere in the list. -/
def hasMatch (pat : List Char) : List Char → Bool
  | [] => (dropLit pat []).isSome
  | c :: rest => (dropLit pat (c :: rest)).isSome || hasMatch pat rest

/-- Embedding of `String.prototype.includes`. -/
def containsSubstr (s pat : String) : Bool :=
  hasMatch pat.data s.data

/-- Removal of the first occurrence of a nonempty pattern. -/
def removeFirst (pat : List Char) : List Char → List Char
  | [] => []
  | c :: rest =>
      match dropLit pat (c :: rest) with
      | some rem => rem
      | none => c :: removeFirst pat rest

/-- Embedding of `String.prototype.replace` with a plain-string pattern and the empty
replacement: removes the first occurrence (replacing the empty pattern by
the empty string leaves the string unchanged). -/
def replaceFirst (s pat : String) : String :=
  if pat = "" then s else ⟨removeFirst pat.data s.data⟩

/-- Embedding of `String.prototype.split` with a single-character separator. -/
def splitOnChar (sep : Char) : List Char → List (List Char)
  | [] => [[]]
  | c :: rest =>
      if c = sep then [] :: splitOnChar sep rest
      else
        match splitOnChar sep rest with
        | [] => [[c]]
        | g :: gs => (c :: g) :: gs

/-- Lexicographic comparison of character lists (the default
`Array.prototype.sort` string order). -/
def charListLt : List Char → List Char → Bool
  | [], [] => false
  | [], _ :: _ => true
  | _ :: _, [] => false
  | a :: as, b :: bs =>
      if a < b then true else if b < a then false else charListLt as bs

/-! ## Decimal, date and string-similarity primitives -/

/-- Exact decimal amounts (the `Big` dependency) are modelled as rationals:
`Big.eq` is value equality and all amounts in the pipeline are exact
decimals, which embed into `ℚ` without loss. -/
abbrev Big := ℚ

/-- A JavaScript `Date`: `time` is the value of `getTime()` (milliseconds
since the epoch, possibly negative) and `hours` / `minutes` are the values
of the local-time accessors `getHours()` / `getMinutes()`.  The local-time
fields depend on the time zone as well as on `time`, so they are carried
as separate fields. -/
structure Date where
  time : Int
  hours : Nat
  minutes : Nat
  deriving DecidableEq, Repr

/-- Modelled from the spec: `compareTwoStrings` of the `string-similarity`
dependency (not part of this repository), the Sorensen-Dice coefficient
over character bigrams.  Whitespace is removed; identical strings score 1;
strings shorter than two characters score 0; otherwise the score is twice
the multiset-intersection count of bigrams divided by the total number of
bigrams. -/
def stripWhitespace (s : String) : String :=
  ⟨s.data.filter (fun c => !c.isWhitespace)⟩

/-- Consecutive character bigrams of a string. -/
def bigrams : List Char → List (Char × Char)
  | a :: b :: rest => (a, b) :: bigrams (b :: rest)
  | _ => []

/-- Multiset intersection count: walks the second list, consuming matching
elements from the first. -/
def interCount : List (Char × Char) → List (Char × Char) → Nat
  | _, [] => 0
  | fst, b :: rest =>
      if b ∈ fst then 1 + interCount (fst.erase b) rest
      else interCount fst rest

/-- Modelled from the spec: the Sorensen-Dice similarity used for fuzzy
matching (the `string-similarity` dependency`s `compareTwoStrings`). -/
def compareTwoStrings (first second : String) : ℚ :=
  let f := stripWhitespace first
  let s := stripWhitespace second
  if f = s then 1
  else if f.length < 2 ∨ s.length < 2 then 0
  else
    (2 * (interCount (bigrams f.data) (bigrams s.data)) : ℚ) /
      ((f.length + s.length - 2 : Nat) : ℚ)

/-! ## The Transaction data model (`src/lib/firefly.ts`) -/

/-- A transaction of the `Transactions` store in `src/lib/firefly.ts`.
`akahuIds` is a JavaScript `Set` (insertion-ordered, duplicate-free);
optional fields are `Option`s, `none` meaning the property is absent. -/
structure Transaction where
  id : Nat
  fireflyId : Option Nat
  akahuIds : List String
  description : String
  date : Date
  amount : Big
  sourceId : Nat
  destinationId : Nat
  foreignAmount : Option Big
  foreignCurrencyCode : Option String
  categoryName : Option String
  deriving DecidableEq, Repr

/-- The filter predicate inside `Transactions.findBestTransaction`: same
source, destination and amount; equal firefly ids when both are set; equal
foreign amount and foreign currency code when both are set; and the
caller-provided `compare` predicate accepts. -/
def matchesKey (cmp : Transaction → Transaction → Bool)
    (t other : Transaction) : Bool :=
  (match t.fireflyId, other.fireflyId with
   | some a, some b => a = b
   | _, _ => true) &&
  (match t.foreignAmount, other.foreignAmount with
   | some a, some b => a = b
   | _, _ => true) &&
  (match t.foreignCurrencyCode, other.foreignCurrencyCode with
   | some a, some b => a = b
   | _, _ => true) &&
  (t.sourceId = other.sourceId) &&
  (t.destinationId = other.destinationId) &&
  (t.amount = other.amount) &&
  cmp t other

/-- Absolute date distance `Math.abs(a.getTime() - b.getTime())` in
milliseconds. -/
def dateDist (t other : Transaction) : Nat :=
  (t.date.time - other.date.time).natAbs

/-- A scored candidate inside `findBestTransaction`. -/
structure Similarity where
  date : Nat
  description : ℚ
  transaction : Transaction
  deriving DecidableEq, Repr

/-- The comparator passed to `similarities.sort`: ascending date distance,
ties broken by ascending description similarity. -/
def simLe (a b : Similarity) : Bool :=
  a.date < b.date ∨ (a.date = b.date ∧ a.description ≤ b.description)

/-- Stable insertion into a list sorted by `simLe` (models the behaviour of
`Array.prototype.sort` with the source comparator: the result is a
permutation of the input, sorted by the comparator). -/
def simInsert (x : Similarity) : List Similarity → List Similarity
  | [] => [x]
  | y :: ys => if simLe y x then y :: simInsert x ys else x :: y :: ys

/-- Sorting by the source comparator. -/
def simSort : List Similarity → List Similarity
  | [] => []
  | x :: xs => simInsert x (simSort xs)

/-- Embedding of `Transactions.findBestTransaction`: filters candidates by the structural
key, returns the single match directly when there are fewer than two, and
otherwise scores the matches, drops the ones three or more days away,
sorts ascending by (date distance, description similarity) and takes the
head. -/
def findBestTransaction (cmp : Transaction → Transaction → Bool)
    (transaction : Transaction) (transactions : List Transaction) :
    Option Transaction :=
  let cands := transactions.filter (matchesKey cmp transaction)
  if cands.length < 2 then cands.head?
  else
    let similarities :=
      (cands.map (fun other =>
        { date := dateDist transaction other
          description := compareTwoStrings transaction.description other.description
          transaction := other : Similarity })).filter
        (fun x => x.date < 3 * 24 * 60 * 60 * 1000)
    (simSort similarities).head?.map Similarity.transaction

/-! ## The Transactions store (`src/lib/firefly.ts`) -/

/-- The `Transactions` store: the primary map plus the two secondary
indices, all insertion-ordered. -/
structure TStore where
  transactions : List (Nat × Transaction)
  fireflyIdIndex : List (Nat × Transaction)
  akahuIdIndex : List (String × Transaction)
  deriving DecidableEq, Repr

/-- An empty `Transactions` store. -/
def TStore.empty : TStore := ⟨[], [], []⟩

/-- Embedding of `Transactions.index`: stores the transaction under its id and adds it to
both secondary indices; on a duplicated secondary key the existing entry
wins and the duplication is only logged. -/
def TStore.index (s : TStore) (t : Transaction) : TStore :=
  let s := { s with transactions := mapSet s.transactions t.id t }
  let s :=
    match t.fireflyId with
    | some fid =>
        match mapGet s.fireflyIdIndex fid with
        | some _ => s
        | none => { s with fireflyIdIndex := mapSet s.fireflyIdIndex fid t }
    | none => s
  t.akahuIds.foldl
    (fun s akahuId =>
      match mapGet s.akahuIdIndex akahuId with
      | some _ => s
      | none => { s with akahuIdIndex := mapSet s.akahuIdIndex akahuId t })
    s

/-- Embedding of `Transactions.deindex`: removes the transaction's firefly id and akahu
ids from the secondary indices. -/
def TStore.deindex (s : TStore) (t : Transaction) : TStore :=
  let s :=
    match t.fireflyId with
    | some fid => { s with fireflyIdIndex := mapDelete s.fireflyIdIndex fid }
    | none => s
  t.akahuIds.foldl
    (fun s akahuId => { s with akahuIdIndex := mapDelete s.akahuIdIndex akahuId })
    s

/-- Embedding of `Transactions.save`: returns the updated store together with the thrown
error, if any.  A missing id is only logged (the store is returned
unchanged with no error); changing a set firefly id or dropping an akahu id
throws before any mutation takes place. -/
def TStore.save (s : TStore) (t : Transaction) : TStore × Option String :=
  match mapGet s.transactions t.id with
  | none => (s, none)
  | some existing =>
      if existing.fireflyId.isSome ∧ existing.fireflyId ≠ t.fireflyId then
        (s, some "Cannot change Firefly ID once it has been set.")
      else
        match existing.akahuIds.find? (fun akahuId => !(decide (akahuId ∈ t.akahuIds))) with
        | some _ => (s, some "Cannot remove Akahu IDs once they have been added.")
        | none => ((s.deindex existing).index t, none)

/-- Embedding of `Transactions.mergeTransactions`: populates missing details of `a` from
`b`.  The `a.date ??= b.date` line of the source is a no-op because `date`
is never absent; the date is then overwritten with `b.date` exactly when
`b.date` carries a nonzero hour or minute. -/
def mergeTransactions (a b : Transaction) : Transaction :=
  let a := { a with fireflyId := match a.fireflyId with
                                 | some v => some v
                                 | none => b.fireflyId }
  let a := { a with akahuIds := setUnion a.akahuIds b.akahuIds }
  let a := { a with foreignAmount := match b.foreignAmount with
                                     | none => a.foreignAmount
                                     | some v => match a.foreignAmount with
                                                 | some w => some w
                                                 | none => some v }
  let a := { a with foreignCurrencyCode := match b.foreignCurrencyCode with
                                           | none => a.foreignCurrencyCode
                                           | some v => match a.foreignCurrencyCode with
                                                       | some w => some w
                                                       | none => some v }
  let a := { a with categoryName := match b.categoryName with
                                    | none => a.categoryName
                                    | some v => match a.categoryName with
                                                | some w => some w
                                                | none => some v }
  if b.date.minutes ≠ 0 ∨ b.date.hours ≠ 0 then { a with date := b.date } else a

/-- The save performed inside `Transactions.merge` after a fusion.  In the
source, `save` receives the very object already stored in the map (the
merger mutates it in place), so the immutability checks compare the object
with itself and can never throw; the net effect is de-indexing the old
keys and re-indexing the merged transaction. -/
def TStore.saveMerged (s : TStore) (old merged : Transaction) : TStore :=
  (s.deindex old).index merged

/-- First pass of `Transactions.merge`: walks the left snapshot, fuses each
left transaction with its best match among the remaining right
transactions.  The `combine` argument models the caller-provided `merge`
callback, which may further modify the fused transaction. -/
def mergePass1 (cmp : Transaction → Transaction → Bool)
    (combine : Transaction → Transaction → Transaction) :
    List (Nat × Transaction) → TStore → List (Nat × Transaction) →
    List (Nat × Transaction) →
    TStore × List (Nat × Transaction) × List (Nat × Transaction)
  | [], store, left, right => (store, left, right)
  | (_, t) :: rest, store, left, right =>
      match findBestTransaction cmp t (right.map Prod.snd) with
      | none => mergePass1 cmp combine rest store left right
      | some m =>
          let left := mapDelete left t.id
          let right := mapDelete right m.id
          let merged := combine (mergeTransactions t m) m
          let store := store.saveMerged t merged
          mergePass1 cmp combine rest store left right

/-- Second pass of `Transactions.merge`: walks the remaining right
transactions; an unmatched right transaction is created in the store (its
id is already set, so `create` keeps it) but is not removed from the right
map. -/
def mergePass2 (cmp : Transaction → Transaction → Bool)
    (combine : Transaction → Transaction → Transaction) :
    List (Nat × Transaction) → TStore → List (Nat × Transaction) →
    List (Nat × Transaction) →
    TStore × List (Nat × Transaction) × List (Nat × Transaction)
  | [], store, left, right => (store, left, right)
  | (_, t) :: rest, store, left, right =>
      match findBestTransaction cmp t (left.map Prod.snd) with
      | none => mergePass2 cmp combine rest (store.index t) left right
      | some m =>
          let left := mapDelete left m.id
          let right := mapDelete right t.id
          let merged := combine (mergeTransactions m t) t
          let store := store.saveMerged m merged
          mergePass2 cmp combine rest store left right

/-- Embedding of `Transactions.merge`: clones both transaction maps, runs the two passes
and returns the mutated store together with the left and right remainder
maps. -/
def TStore.merge (s other : TStore)
    (cmp : Transaction → Transaction → Bool)
    (combine : Transaction → Transaction → Transaction) :
    TStore × List (Nat × Transaction) × List (Nat × Transaction) :=
  let left := s.transactions
  let right := other.transactions
  let (store, left, right) := mergePass1 cmp combine left s left right
  mergePass2 cmp combine right store left right

/-- The `combine` callback used by the feed importer's transfer fusion:
concatenates the two descriptions. -/
def combineDescriptions (a b : Transaction) : Transaction :=
  { a with description := a.description ++ " - " ++ b.description }

/-- The transfer-fusion step of `importTransactions` in
`src/lib/akahu-import.ts`: merges the negative pool into the positive
pool, then throws when any transaction is left unmatched in either
remainder.  The returned store is the positive pool as it stands when the
function finishes or throws. -/
def importFusion (positive negative : TStore) : TStore × Option String :=
  let (store, left, right) := positive.merge negative (fun _ _ => true) combineDescriptions
  if (left.map Prod.snd ++ right.map Prod.snd).length ≠ 0 then
    (store, some "Could not find matching transactions")
  else
    (store, none)

/-! ## The Accounts store (`src/lib/accounts.ts`) -/

/-- The four account types. -/
inductive AccountType
  | asset
  | liability
  | expense
  | revenue
  deriving DecidableEq, Repr

/-- A source or destination role record of an account. -/
structure Role where
  fireflyId : Option Nat
  type : AccountType
  notes : Option String
  deriving DecidableEq, Repr

/-- An account of the `Accounts` store.  `bankNumbers` is a JavaScript `Set`
and `alternateNames` a JavaScript `Map` from normalized name to original
name, both insertion-ordered. -/
structure Account where
  id : Nat
  source : Option Role
  destination : Option Role
  akahuId : Option String
  name : String
  bankNumbers : List String
  alternateNames : List (String × String)
  deriving DecidableEq, Repr

/-- JavaScript `parseInt` restricted to the decimal digit strings produced
by the bank-number pattern: the leading run of digits, or `none` (`NaN`)
when there is none. -/
def parseIntJS (s : String) : Option Nat :=
  let ds := s.data.takeWhile Char.isDigit
  if ds.isEmpty then none
  else some (ds.foldl (fun n c => 10 * n + (c.toNat - 48)) 0)

/-- Embedding of `String.prototype.padStart` with the pad character `0`. -/
def padStart (s : String) (n : Nat) : String :=
  ⟨List.replicate (n - s.data.length) '0'⟩ ++ s

/-- Embedding of `Accounts.formatBankNumber`: splits on `-`, re-parses each part and
zero-pads the parts to widths 2, 4, 7 and 3.  A part with no digits
renders as `NaN`, as `parseInt(...).toString()` does. -/
def formatBankNumber (bankNumber : String) : String :=
  let lengths := [2, 4, 7, 3]
  String.intercalate "-"
    ((((splitOnChar '-' bankNumber.data).map (fun g => String.mk g)).enum).map (fun p =>
      padStart
        (match parseIntJS p.2 with
         | some n => toString n
         | none => "NaN")
        (lengths.getD p.1 0)))

/-- Modelled from the spec: `Accounts.normalizeName` applies Unicode NFD,
strips code points matched by the `Diacritic` property, lowercases and
trims.  NFD itself is a Unicode table lookup and is modelled as the
identity (faithful for strings that are already decomposed, in particular
all ASCII data); the diacritic strip is modelled as dropping the combining
diacritical marks block. -/
def normalizeName (name : String) : String :=
  jsTrim (jsLower (String.mk (name.data.filter (fun c => !(0x300 ≤ c.toNat ∧ c.toNat ≤ 0x36F)))))

/-- The `Accounts` store: primary map plus four secondary indices. -/
structure Accounts where
  accounts : List (Nat × Account)
  fireflyIdIndex : List (Nat × Account)
  akahuIdIndex : List (String × Account)
  bankNumberIndex : List (String × Account)
  nameIndex : List (String × Account)
  deriving DecidableEq, Repr

/-- An empty `Accounts` store. -/
def Accounts.emptyStore : Accounts := ⟨[], [], [], [], []⟩

/-- First-wins insertion used by `Accounts.index`: an existing entry is kept
and the duplication only logged. -/
def idxSet {κ : Type} [DecidableEq κ] (m : List (κ × Account)) (k : κ)
    (a : Account) : List (κ × Account) :=
  match mapGet m k with
  | some _ => m
  | none => mapSet m k a

/-- Embedding of `Accounts.index`: stores the account and adds it to the four secondary
indices, first entry winning on duplicated keys.  The destination firefly
id is only indexed when it differs from the source firefly id. -/
def Accounts.index (s : Accounts) (account : Account) : Accounts :=
  let s := { s with accounts := mapSet s.accounts account.id account }
  let s :=
    match account.source.bind Role.fireflyId with
    | some fid => { s with fireflyIdIndex := idxSet s.fireflyIdIndex fid account }
    | none => s
  let s :=
    if (account.source.bind Role.fireflyId) ≠ (account.destination.bind Role.fireflyId) then
      match account.destination.bind Role.fireflyId with
      | some fid => { s with fireflyIdIndex := idxSet s.fireflyIdIndex fid account }
      | none => s
    else s
  let s :=
    match account.akahuId with
    | some akahuId => { s with akahuIdIndex := idxSet s.akahuIdIndex akahuId account }
    | none => s
  let s := account.alternateNames.foldl
    (fun s p => { s with nameIndex := idxSet s.nameIndex p.1 account }) s
  account.bankNumbers.foldl
    (fun s bankNumber => { s with bankNumberIndex := idxSet s.bankNumberIndex bankNumber account }) s

/-- Embedding of `Accounts.deindex`: removes the account's keys from the four secondary
indices. -/
def Accounts.deindex (s : Accounts) (account : Account) : Accounts :=
  let s :=
    match account.source.bind Role.fireflyId with
    | some fid => { s with fireflyIdIndex := mapDelete s.fireflyIdIndex fid }
    | none => s
  let s :=
    match account.destination.bind Role.fireflyId with
    | some fid => { s with fireflyIdIndex := mapDelete s.fireflyIdIndex fid }
    | none => s
  let s :=
    match account.akahuId with
    | some akahuId => { s with akahuIdIndex := mapDelete s.akahuIdIndex akahuId }
    | none => s
  let s := account.alternateNames.foldl
    (fun s p => { s with nameIndex := mapDelete s.nameIndex p.1 }) s
  account.bankNumbers.foldl
    (fun s bankNumber => { s with bankNumberIndex := mapDelete s.bankNumberIndex bankNumber }) s

/-- Embedding of `Accounts.get` (the `clone` of the source copies the returned value; in
this value-level embedding a clone is the value itself; the reference
behaviour of `clone` is studied separately in the heap model below). -/
def Accounts.get (s : Accounts) (id : Nat) : Option Account :=
  mapGet s.accounts id

/-- Embedding of `Accounts.getByAkahuId`. -/
def Accounts.getByAkahuId (s : Accounts) (akahuId : String) : Option Account :=
  mapGet s.akahuIdIndex akahuId

/-- Embedding of `Accounts.getByFireflyId`. -/
def Accounts.getByFireflyId (s : Accounts) (fireflyId : Nat) : Option Account :=
  mapGet s.fireflyIdIndex fireflyId

/-- Embedding of `Accounts.getByBankNumber`: formats the input first. -/
def Accounts.getByBankNumber (s : Accounts) (bankNumber : String) : Option Account :=
  mapGet s.bankNumberIndex (formatBankNumber bankNumber)

/-- Embedding of `Accounts.getByName`: normalizes the input first. -/
def Accounts.getByName (s : Accounts) (name : String) : Option Account :=
  mapGet s.nameIndex (normalizeName name)

/-- The scanning loop of `Accounts.getByNameFuzzy`: keeps the current best
match and rating, replacing them only on a strictly greater rating (so the
first entry attaining the final maximum wins). -/
def fuzzyLoop (src : String) :
    List (String × Account) → Option Account → ℚ → Option Account × ℚ
  | [], best, rating => (best, rating)
  | (name, account) :: rest, best, rating =>
      let r := compareTwoStrings src name
      if rating < r then fuzzyLoop src rest (some account) r
      else fuzzyLoop src rest best rating

/-- Embedding of `Accounts.getByNameFuzzy`: normalizes the query, scans the whole name
index, and throws (`none`) when no entry ever beat the initial rating of
zero. -/
def Accounts.getByNameFuzzy (s : Accounts) (source : String) :
    Option (Account × ℚ) :=
  match fuzzyLoop (normalizeName source) s.nameIndex none 0 with
  | (none, _) => none
  | (some account, rating) => some (account, rating)

/-- Embedding of `Accounts.save`: missing id is only logged; changing a set source or
destination firefly id or a set akahu id throws before any mutation;
otherwise the old entry is de-indexed and the new one indexed. -/
def Accounts.save (s : Accounts) (account : Account) : Accounts × Option String :=
  match mapGet s.accounts account.id with
  | none => (s, none)
  | some existing =>
      if (existing.source.bind Role.fireflyId).isSome ∧
          existing.source.bind Role.fireflyId ≠ account.source.bind Role.fireflyId then
        (s, some "Cannot change source Firefly ID once it has been set.")
      else if (existing.destination.bind Role.fireflyId).isSome ∧
          existing.destination.bind Role.fireflyId ≠ account.destination.bind Role.fireflyId then
        (s, some "Cannot change destination Firefly ID once it has been set.")
      else if existing.akahuId.isSome ∧ existing.akahuId ≠ account.akahuId then
        (s, some "Cannot change Akahu ID once it has been set.")
      else
        ((s.deindex existing).index account, none)

/-! ## Ledger-import account merging (`src/lib/firefly-import.ts`) -/

/-- Construction `new Map([...a, ...b])`: inserts all entries of `a`, then
all entries of `b`; on duplicate keys the later value wins while the entry
keeps its first position. -/
def mapUnionJS (a b : List (String × String)) : List (String × String) :=
  b.foldl (fun m p => mapSet m p.1 p.2) a

/-- Embedding of `mergeAccounts` of the ledger importer: rejects two source roles, two
destination roles, mismatched set akahu ids and mismatched names, and
otherwise unites the two accounts keeping the id of `a`. -/
def mergeAccounts (a b : Account) : Except String Account :=
  if a.source.isSome ∧ b.source.isSome then
    Except.error "Merging two accounts with Source Firefly IDs"
  else if a.destination.isSome ∧ b.destination.isSome then
    Except.error "Merging two accounts with Destination Firefly IDs"
  else if a.akahuId.isSome ∧ b.akahuId.isSome ∧ a.akahuId ≠ b.akahuId then
    Except.error "Merging mismatched Akahu IDs"
  else if a.name ≠ b.name then
    Except.error "Merging mismatched names"
  else
    Except.ok
      { id := a.id
        source := match a.source with
                  | some r => some r
                  | none => b.source
        destination := match a.destination with
                       | some r => some r
                       | none => b.destination
        akahuId := match a.akahuId with
                   | some v => some v
                   | none => b.akahuId
        name := a.name
        bankNumbers := setUnion a.bankNumbers b.bankNumbers
        alternateNames := mapUnionJS a.alternateNames b.alternateNames }

/-! ## Counterparty resolution of the feed importer (`src/lib/akahu-import.ts`) -/

/-- The merchant object of a feed transaction. -/
structure Merchant where
  mid : String
  mname : String
  deriving DecidableEq, Repr

/-- The `meta` object of a feed transaction. -/
structure AkahuMeta where
  reference : Option String
  particulars : Option String
  code : Option String
  other_account : Option String
  deriving DecidableEq, Repr

/-- A feed transaction, restricted to the fields `findAccount` reads.
Presence of the optional `merchant` and `meta` members models the
JavaScript `in` checks. -/
structure AkahuTransaction where
  tid : String
  taccount : String
  amount : ℚ
  description : String
  merchant : Option Merchant
  meta : Option AkahuMeta
  deriving DecidableEq, Repr

/-- Embedding of `findAccount` of the feed importer: the chained `??=` strategy cascade
followed by the two-sided fuzzy fallback. -/
def findAccount (accounts : Accounts) (t : AkahuTransaction) :
    Except String Account :=
  let account : Option Account := none
  let account :=
    if containsSubstr (jsLower t.description) "interest" then
      match account with
      | some a => some a
      | none => accounts.getByName "Interest"
    else account
  let account :=
    match t.merchant with
    | some m =>
        (match account with
         | some a => some a
         | none => accounts.getByAkahuId m.mid)
    | none => account
  let account :=
    match t.meta with
    | some meta =>
        (match account with
         | some a => some a
         | none => accounts.getByBankNumber (meta.other_account.getD ""))
    | none => account
  match account with
  | some a => Except.ok a
  | none =>
      match accounts.getByNameFuzzy t.description with
      | none => Except.error "Could not find an account name to match"
      | some m =>
          match t.meta with
          | some meta =>
              match accounts.getByNameFuzzy
                  (replaceFirst t.description (meta.reference.getD "")) with
              | none => Except.error "Could not find an account name to match"
              | some nm => Except.ok (if m.2 < nm.2 then nm.1 else m.1)
          | none => Except.ok m.1

/-- The spec's formulation of the counterparty strategies (section 4.5),
used to state the refinement claim: first succeeding strategy in the fixed
order interest-name, merchant akahu id, bank number, fuzzy. -/
def specStrategies (accounts : Accounts) (t : AkahuTransaction) : Option Account :=
  let s1 := if containsSubstr (jsLower t.description) "interest" then
              accounts.getByName "Interest"
            else none
  let s2 := match t.merchant with
            | some m => accounts.getByAkahuId m.mid
            | none => none
  let s3 := match t.meta with
            | some meta => accounts.getByBankNumber (meta.other_account.getD "")
            | none => none
  match s1 with
  | some a => some a
  | none =>
      match s2 with
      | some a => some a
      | none => s3

/-- The spec's formulation of the fuzzy fallback: fuzzy on the description;
when `meta.reference` is present also fuzzy on the description with the
reference removed, keeping whichever result scores higher. -/
def specFuzzy (accounts : Accounts) (t : AkahuTransaction) :
    Except String Account :=
  match accounts.getByNameFuzzy t.description with
  | none => Except.error "Could not find an account name to match"
  | some m =>
      match t.meta with
      | some meta =>
          match meta.reference with
          | some ref =>
              match accounts.getByNameFuzzy (replaceFirst t.description ref) with
              | none => Except.error "Could not find an account name to match"
              | some nm => Except.ok (if m.2 < nm.2 then nm.1 else m.1)
          | none => Except.ok m.1
      | none => Except.ok m.1

/-- The spec's account-resolution procedure assembled from the strategies. -/
def specFindAccount (accounts : Accounts) (t : AkahuTransaction) :
    Except String Account :=
  match specStrategies accounts t with
  | some a => Except.ok a
  | none => specFuzzy accounts t

/-! ## The exporter (`src/lib/firefly-export.ts`) -/

/-- The ledger transaction kinds used by the exporter. -/
inductive TransactionTypeProperty
  | withdrawal
  | deposit
  | transfer
  deriving DecidableEq, Repr

/-- The `transactionMapping` kind table. -/
def transactionMapping : AccountType → AccountType → Option TransactionTypeProperty
  | .asset, .asset => some .transfer
  | .asset, .liability => some .withdrawal
  | .asset, .expense => some .withdrawal
  | .asset, .revenue => none
  | .liability, .asset => some .deposit
  | .liability, .liability => some .transfer
  | .liability, .expense => some .withdrawal
  | .liability, .revenue => none
  | .expense, _ => none
  | .revenue, .asset => some .deposit
  | .revenue, .liability => some .deposit
  | .revenue, .expense => none
  | .revenue, .revenue => none

/-- Match of the `AKAHU_ID_REGEX` pattern
(literal `**Akahu ID**`, whitespace, a nonempty backtick-quoted chunk)
starting at the head of the character list; returns the remainder after
the match. -/
def matchAkahuAt (cs : List Char) : Option (List Char) :=
  match dropLit "**Akahu ID**".data cs with
  | none => none
  | some cs1 =>
      match cs1.dropWhile Char.isWhitespace with
      | '`' :: cs2 =>
          let body := cs2.takeWhile (fun c => c ≠ '`')
          if body.isEmpty then none
          else
            match cs2.dropWhile (fun c => c ≠ '`') with
            | '`' :: cs3 => some cs3
            | _ => none
      | _ => none

/-- Embedding of `String.prototype.replace(AKAHU_ID_REGEX, '')`: removes the first
(leftmost) match. -/
def stripAkahuChars : List Char → List Char
  | [] => []
  | c :: rest =>
      match matchAkahuAt (c :: rest) with
      | some rem => rem
      | none => c :: stripAkahuChars rest

/-- Match of one `\n-\s*`name`` group of the `ALT_NAMES_REGEX`. -/
def matchAltGroup (cs : List Char) : Option (List Char) :=
  match cs with
  | '\n' :: '-' :: cs1 =>
      match cs1.dropWhile Char.isWhitespace with
      | '`' :: cs2 =>
          let body := cs2.takeWhile (fun c => c ≠ '`')
          if body.isEmpty then none
          else
            match cs2.dropWhile (fun c => c ≠ '`') with
            | '`' :: cs3 => some cs3
            | _ => none
      | _ => none
  | _ => none

/-- Greedy repetition of further `ALT_NAMES_REGEX` groups; every group
consumes at least one character, so a fuel equal to the list length is
enough to run to completion. -/
def matchMoreGroups : Nat → List Char → List Char
  | 0, cs => cs
  | fuel + 1, cs =>
      match matchAltGroup cs with
      | none => cs
      | some rem => matchMoreGroups fuel rem

/-- Match of the `ALT_NAMES_REGEX` pattern (`**Alternate names**` followed
by one or more list items) starting at the head of the list. -/
def matchAltAt (cs : List Char) : Option (List Char) :=
  match dropLit "**Alternate names**".data cs with
  | none => none
  | some cs1 =>
      match matchAltGroup cs1 with
      | none => none
      | some rem => some (matchMoreGroups rem.length rem)

/-- Embedding of `String.prototype.replace(ALT_NAMES_REGEX, '')`: removes the first
match. -/
def stripAltChars : List Char → List Char
  | [] => []
  | c :: rest =>
      match matchAltAt (c :: rest) with
      | some rem => rem
      | none => c :: stripAltChars rest

/-- Embedding of `updateNotes`: strips the previous Akahu ID and alternate-names blocks,
then appends the rebuilt Akahu ID block and the rebuilt alternate-names
list (backticks inside names replaced by apostrophes), and trims. -/
def updateNotes (notes : Option String) (akahuId : Option String)
    (otherNames : List String) : String :=
  let notes :=
    jsTrim (String.mk (stripAltChars (stripAkahuChars (notes.getD "").data)))
  let notes :=
    match akahuId with
    | some a => notes ++ "\n\n**Akahu ID** `" ++ a ++ "`"
    | none => notes
  let notes :=
    if otherNames.length > 0 then
      let list := String.intercalate "\n"
        (otherNames.map (fun name =>
          "- `" ++ String.mk (name.data.map (fun c => if c = '`' then '\x27' else c)) ++ "`"))
      notes ++ "\n\n**Alternate names**\n" ++ list
    else notes
  jsTrim notes

/-- The account update payload; JSON byte equality of the serialized
payload coincides with equality of this record because the key order is
fixed and all three keys are always assigned. -/
structure UpdateAccount where
  name : String
  account_number : String
  notes : String
  deriving DecidableEq, Repr

/-- The transaction update payload; optional keys are only present when
assigned. -/
structure UpdateTransaction where
  type : TransactionTypeProperty
  external_id : String
  description : String
  date : String
  amount : String
  source_id : String
  destination_id : String
  foreign_amount : Option String
  foreign_currency_code : Option String
  category_name : Option String
  deriving DecidableEq, Repr

/-- Ascending insertion for `Array.prototype.sort()` over strings. -/
def strInsert (x : String) : List String → List String
  | [] => [x]
  | y :: ys => if charListLt x.data y.data then x :: y :: ys else y :: strInsert x ys

/-- Lexicographic string sort (`[...set].sort()`). -/
def strSort (l : List String) : List String :=
  l.foldr strInsert []

/-- Embedding of `[...set].sort().join(',')`. -/
def joinSorted (l : List String) : String :=
  String.intercalate "," (strSort l)

/-- Modelled from the spec: exact stringification of a `Big` decimal.  The
rendering is modelled as an injective function of the rational value,
which is all the diff emitter relies on. -/
def bigToString (q : ℚ) : String :=
  toString q.num ++ "/" ++ toString q.den

/-- Modelled from the spec: `Date.prototype.toISOString`, an injective
rendering of the epoch-millisecond instant. -/
def isoString (d : Date) : String :=
  toString d.time

/-- Embedding of `transformTransaction` of the exporter: resolves both firefly ids,
looks the kind up in the table (raising on an invalid pair) and builds the
update payload. -/
def transformTransaction (t : Transaction) (accounts : Accounts) :
    Except String UpdateTransaction :=
  match (accounts.get t.sourceId).bind Account.source with
  | none => Except.error "Source account not set"
  | some source =>
      match source.fireflyId with
      | none => Except.error "Source account not set"
      | some sourceFid =>
          match (accounts.get t.destinationId).bind Account.destination with
          | none => Except.error "Destination account not set"
          | some destination =>
              match destination.fireflyId with
              | none => Except.error "Destination account not set"
              | some destFid =>
                  match transactionMapping source.type destination.type with
                  | none => Except.error "Invalid transaction type"
                  | some ty =>
                      Except.ok
                        { type := ty
                          external_id := joinSorted t.akahuIds
                          description := t.description
                          date := isoString t.date
                          amount := bigToString t.amount
                          source_id := toString sourceFid
                          destination_id := toString destFid
                          foreign_amount := t.foreignAmount.map bigToString
                          foreign_currency_code := t.foreignCurrencyCode
                          category_name := t.categoryName }

/-- A write issued to the ledger API. -/
inductive Write
  | updateAcc (fireflyId : Nat) (payload : UpdateAccount)
  | createAcc (type : AccountType) (payload : UpdateAccount)
  | updateTrans (fireflyId : Nat) (payload : UpdateTransaction)
  | createTrans (payload : UpdateTransaction)
  deriving DecidableEq, Repr

/-- Whether a write is an account write. -/
def isAccountWrite : Write → Prop
  | .updateAcc _ _ => True
  | .createAcc _ _ => True
  | .updateTrans _ _ => False
  | .createTrans _ => False

/-- The `select` argument of `updateAccount`. -/
inductive RoleSelect
  | src
  | dst
  deriving DecidableEq, Repr

/-- Role selection by the `select` argument. -/
def selectRole (a : Account) : RoleSelect → Option Role
  | .src => a.source
  | .dst => a.destination

/-- The writes issued by one `updateAccount` call (zero or one): skip when
the role is absent or when the payload is byte-identical to the one
derived from the old account, else update when the role carries a firefly
id and create otherwise. -/
def updateAccountWrites (account : Account) (oldAccount : Option Account)
    (select : RoleSelect) : List Write :=
  match selectRole account select with
  | none => []
  | some sourceDest =>
      let altNames := mapDelete account.alternateNames (normalizeName account.name)
      let otherNames := altNames.map Prod.snd
      let update : UpdateAccount :=
        { name := account.name
          account_number := joinSorted account.bankNumbers
          notes := updateNotes sourceDest.notes account.akahuId otherNames }
      let skip : Bool :=
        match oldAccount with
        | some oldA =>
            decide (({ name := oldA.name
                       account_number := joinSorted oldA.bankNumbers
                       notes := ((((selectRole oldA select).bind Role.notes).map
                         jsTrim).getD "") } : UpdateAccount) = update)
        | none => false
      if skip then []
      else
        match sourceDest.fireflyId with
        | some fid => [Write.updateAcc fid update]
        | none => [Write.createAcc sourceDest.type update]

/-- The per-account step of `exportAccounts`: the source side always, the
destination side when the destination role is an expense. -/
def exportAccStep (current : Accounts) (ws : List Write) (p : Nat × Account) :
    List Write :=
  let account := p.2
  let oldAccount := current.get account.id
  let ws := ws ++ updateAccountWrites account oldAccount RoleSelect.src
  if (account.destination.map Role.type) = some AccountType.expense then
    ws ++ updateAccountWrites account oldAccount RoleSelect.dst
  else ws

/-- The writes issued by `exportAccounts` over the modified accounts in
insertion order. -/
def exportAccountsWrites (current modified : Accounts) : List Write :=
  modified.accounts.foldl (exportAccStep current) []

/-- One step of the exporter pre-pass: synthesize a Revenue source role or
an Expense destination role on the accounts a transaction references when
they are missing. -/
def prePassStep (accounts : Accounts) (t : Transaction) :
    Except String Accounts := do
  let accounts ←
    match accounts.get t.sourceId with
    | none => Except.error "Invalid account ID"
    | some source =>
        match source.source with
        | none =>
            let r := accounts.save
              { source with source := some { fireflyId := none, type := .revenue, notes := none } }
            match r.2 with
            | some e => Except.error e
            | none => Except.ok r.1
        | some _ => Except.ok accounts
  match accounts.get t.destinationId with
  | none => Except.error "Invalid account ID"
  | some destination =>
      match destination.destination with
      | none =>
          let r := accounts.save
            { destination with destination := some { fireflyId := none, type := .expense, notes := none } }
          match r.2 with
          | some e => Except.error e
          | none => Except.ok r.1
      | some _ => Except.ok accounts

/-- The whole exporter pre-pass over the modified transactions. -/
def prePassAll (modified : TStore) (accounts : Accounts) :
    Except String Accounts :=
  modified.transactions.foldlM (fun accs p => prePassStep accs p.2) accounts

/-- The write emitted for one non-skipped transaction. -/
def emitTransaction (t : Transaction) (update : UpdateTransaction) : Write :=
  match t.fireflyId with
  | some fid => Write.updateTrans fid update
  | none => Write.createTrans update

/-- The per-transaction step of `exportTransactions`: build the payload,
compare it against the payload rebuilt from the original transaction
against the modified accounts, skip when byte-identical and emit
otherwise.  A throw from `transformTransaction` propagates. -/
def exportTransStep (current : TStore) (modifiedAccounts : Accounts)
    (ws : List Write) (p : Nat × Transaction) : Except String (List Write) := do
  let t := p.2
  let update ← transformTransaction t modifiedAccounts
  match mapGet current.transactions t.id with
  | some oldTransaction => do
      let otherUpdate ← transformTransaction oldTransaction modifiedAccounts
      if update = otherUpdate then pure ws
      else pure (ws ++ [emitTransaction t update])
  | none => pure (ws ++ [emitTransaction t update])

/-- The writes issued by `exportTransactions`: the pre-pass, the account
export, then one write per modified transaction whose payload differs. -/
def exportTransactionsWrites (current modified : TStore)
    (currentAccounts modifiedAccounts : Accounts) :
    Except String (List Write) := do
  let modifiedAccounts ← prePassAll modified modifiedAccounts
  let accountWrites := exportAccountsWrites currentAccounts modifiedAccounts
  let transactionWrites ← modified.transactions.foldlM
    (exportTransStep current modifiedAccounts) []
  pure (accountWrites ++ transactionWrites)

/-! ## Heap model of `Accounts.clone` (`src/lib/accounts.ts`)

The value-level embedding above cannot express reference sharing, so the
clone contract is studied on an explicit heap: role records, bank-number
sets and alternate-name maps are separate heap objects addressed by
references, exactly as JavaScript objects are. -/

/-- An account object whose `source` / `destination` members are references
to role records and whose `bankNumbers` / `alternateNames` members are
references to a set and a map object. -/
structure HeapAccount where
  id : Nat
  source : Option Nat
  destination : Option Nat
  akahuId : Option String
  name : String
  bankNumbers : Nat
  alternateNames : Nat
  deriving DecidableEq, Repr

/-- The store with its heap of subsidiary objects. -/
structure AccountsHeap where
  roles : List (Nat × Role)
  sets : List (Nat × List String)
  maps : List (Nat × List (String × String))
  nextRef : Nat
  accounts : List (Nat × HeapAccount)
  deriving DecidableEq, Repr

/-- Embedding of `Accounts.clone`: the spread `{ ...account }` copies the scalar fields
and the references as they are; `new Set(...)` and `new Map(...)` allocate
fresh set and map objects with copied contents; the `source` and
`destination` references are not copied. -/
def cloneAccount (h : AccountsHeap) (a : HeapAccount) :
    AccountsHeap × HeapAccount :=
  let setRef := h.nextRef
  let mapRef := h.nextRef + 1
  let h :=
    { h with
      sets := mapSet h.sets setRef ((mapGet h.sets a.bankNumbers).getD [])
      maps := mapSet h.maps mapRef ((mapGet h.maps a.alternateNames).getD [])
      nextRef := h.nextRef + 2 }
  (h, { a with bankNumbers := setRef, alternateNames := mapRef })

/-- Embedding of `Accounts.get` on the heap model: clone of the stored account. -/
def heapGet (h : AccountsHeap) (id : Nat) :
    AccountsHeap × Option HeapAccount :=
  match mapGet h.accounts id with
  | none => (h, none)
  | some a =>
      let r := cloneAccount h a
      (r.1, some r.2)

/-- Caller-side mutation of a role record through a reference
(`account.source.type = ...` and the like). -/
def writeRole (h : AccountsHeap) (ref : Nat) (v : Role) : AccountsHeap :=
  { h with roles := mapSet h.roles ref v }

/-- Caller-side mutation of a bank-number set through a reference. -/
def writeSet (h : AccountsHeap) (ref : Nat) (v : List String) : AccountsHeap :=
  { h with sets := mapSet h.sets ref v }

/-- Caller-side mutation of an alternate-names map through a reference. -/
def writeMapRef (h : AccountsHeap) (ref : Nat) (v : List (String × String)) :
    AccountsHeap :=
  { h with maps := mapSet h.maps ref v }

/-- The dereferenced view of an account: what any later read of the stored
account observes. -/
structure ResolvedAccount where
  id : Nat
  source : Option (Option Role)
  destination : Option (Option Role)
  akahuId : Option String
  name : String
  bankNumbers : Option (List String)
  alternateNames : Option (List (String × String))
  deriving DecidableEq, Repr

/-- Resolution of an account object against the heap. -/
def resolveAccount (h : AccountsHeap) (a : HeapAccount) : ResolvedAccount :=
  { id := a.id
    source := a.source.map (mapGet h.roles)
    destination := a.destination.map (mapGet h.roles)
    akahuId := a.akahuId
    name := a.name
    bankNumbers := mapGet h.sets a.bankNumbers
    alternateNames := mapGet h.maps a.alternateNames }

/-- The state of the stored account with the given id as observed through
the store. -/
def observeAccount (h : AccountsHeap) (id : Nat) : Option ResolvedAccount :=
  (mapGet h.accounts id).map (resolveAccount h)

/-- Well-formedness of the heap: every reference held by a stored account
is below the allocation counter. -/
def heapWF (h : AccountsHeap) : Prop :=
  ∀ p ∈ h.accounts, p.2.bankNumbers < h.nextRef ∧ p.2.alternateNames < h.nextRef

/-! ## General lemmas about the map, set and sorting primitives -/

theorem mapGet_mapSet_self {κ α : Type} [DecidableEq κ]
    (m : List (κ × α)) (k : κ) (v : α) : mapGet (mapSet m k v) k = some v := by
  induction m with
  | nil => simp [mapGet, mapSet]
  | cons p rest ih =>
      by_cases h : p.1 = k <;> simp [mapGet, mapSet, h, ih]

theorem mapGet_mapSet_ne {κ α : Type} [DecidableEq κ]
    (m : List (κ × α)) (k k' : κ) (v : α) (h : k' ≠ k) :
    mapGet (mapSet m k v) k' = mapGet m k' := by
  induction m with
  | nil => simp [mapGet, mapSet, Ne.symm h]
  | cons p rest ih =>
      by_cases h1 : p.1 = k <;> by_cases h2 : p.1 = k' <;>
        simp_all [mapGet, mapSet]

theorem mapDelete_subset {κ α : Type} [DecidableEq κ]
    {m : List (κ × α)} {k : κ} {p : κ × α} (h : p ∈ mapDelete m k) : p ∈ m := by
  induction m with
  | nil => simp [mapDelete] at h
  | cons q rest ih =>
      by_cases h1 : q.1 = k
      · simp only [mapDelete, h1, if_true] at h
        exact List.mem_cons_of_mem _ h
      · simp only [mapDelete, h1, if_false, List.mem_cons] at h
        rcases h with h | h
        · exact h ▸ List.mem_cons_self _ _
        · exact List.mem_cons_of_mem _ (ih h)

theorem mapDelete_keys_sublist {κ α : Type} [DecidableEq κ]
    (m : List (κ × α)) (k : κ) :
    ((mapDelete m k).map Prod.fst).Sublist (m.map Prod.fst) := by
  induction m with
  | nil => simp [mapDelete]
  | cons q rest ih =>
      by_cases h1 : q.1 = k
      · simp only [mapDelete, h1, if_true, List.map_cons]
        exact (List.Sublist.refl _).cons _
      · simp only [mapDelete, h1, if_false, List.map_cons]
        exact ih.cons₂ _

theorem mapGet_eq_none {κ α : Type} [DecidableEq κ]
    {m : List (κ × α)} {k : κ} (h : k ∉ m.map Prod.fst) : mapGet m k = none := by
  induction m with
  | nil => rfl
  | cons q rest ih =>
      simp only [List.map_cons, List.mem_cons, not_or] at h
      have hq : q.1 ≠ k := fun hh => h.1 hh.symm
      simp [mapGet, hq, ih h.2]

theorem mapGet_mem {κ α : Type} [DecidableEq κ]
    {m : List (κ × α)} {k : κ} {v : α} (h : mapGet m k = some v) : (k, v) ∈ m := by
  induction m with
  | nil => simp [mapGet] at h
  | cons q rest ih =>
      by_cases h1 : q.1 = k
      · simp only [mapGet, h1, if_true, Option.some.injEq] at h
        have : (k, v) = q := by
          obtain ⟨a, b⟩ := q
          simp only at h1 h
          rw [h1, h]
        exact this ▸ List.mem_cons_self _ _
      · simp only [mapGet, h1, if_false] at h
        exact List.mem_cons_of_mem _ (ih h)

theorem mapGet_of_mem_nodup {κ α : Type} [DecidableEq κ]
    {m : List (κ × α)} {k : κ} {v : α}
    (hnd : (m.map Prod.fst).Nodup) (h : (k, v) ∈ m) : mapGet m k = some v := by
  induction m with
  | nil => simp at h
  | cons q rest ih =>
      simp only [List.map_cons, List.nodup_cons] at hnd
      rcases List.mem_cons.mp h with h | h
      · simp [mapGet, ← h]
      · have hk : q.1 ≠ k := by
          intro hq
          exact hnd.1 (hq ▸ (List.mem_map.mpr ⟨(k, v), h, rfl⟩))
        simp [mapGet, hk, ih hnd.2 h]

theorem not_mem_mapDelete_self {κ α : Type} [DecidableEq κ]
    {m : List (κ × α)} {k : κ} {v : α}
    (hnd : (m.map Prod.fst).Nodup) (h : (k, v) ∈ mapDelete m k) : False := by
  induction m with
  | nil => simp [mapDelete] at h
  | cons q rest ih =>
      simp only [List.map_cons, List.nodup_cons] at hnd
      by_cases h1 : q.1 = k
      · simp only [mapDelete, h1, if_true] at h
        exact hnd.1 (h1 ▸ (List.mem_map.mpr ⟨(k, v), h, rfl⟩))
      · simp only [mapDelete, h1, if_false, List.mem_cons] at h
        rcases h with h | h
        · exact h1 (congrArg Prod.fst h).symm
        · exact ih hnd.2 h

theorem mem_setUnion_aux (l : List String) :
    ∀ (acc : List String) (x : String),
      (x ∈ l.foldl (fun acc x => if x ∈ acc then acc else acc ++ [x]) acc) ↔
        x ∈ acc ∨ x ∈ l := by
  induction l with
  | nil => simp
  | cons y ys ih =>
      intro acc x
      by_cases hy : y ∈ acc
      · simp only [List.foldl_cons, hy, if_true, ih, List.mem_cons]
        constructor
        · rintro (h | h)
          · exact Or.inl h
          · exact Or.inr (Or.inr h)
        · rintro (h | h | h)
          · exact Or.inl h
          · exact Or.inl (h ▸ hy)
          · exact Or.inr h
      · simp only [List.foldl_cons, hy, if_false, ih, List.mem_append,
          List.mem_singleton, List.mem_cons]
        tauto

theorem mem_setUnion {a b : List String} {x : String} :
    x ∈ setUnion a b ↔ x ∈ a ∨ x ∈ b := by
  unfold setUnion
  rw [mem_setUnion_aux]
  simp

theorem simLe_refl (a : Similarity) : simLe a a = true := by
  simp [simLe]

theorem simLe_total (a b : Similarity) : simLe a b = true ∨ simLe b a = true := by
  simp only [simLe, decide_eq_true_eq]
  rcases lt_trichotomy a.date b.date with h | h | h
  · exact Or.inl (Or.inl h)
  · rcases le_total a.description b.description with h2 | h2
    · exact Or.inl (Or.inr ⟨h, h2⟩)
    · exact Or.inr (Or.inr ⟨h.symm, h2⟩)
  · exact Or.inr (Or.inl h)

theorem simLe_trans {a b c : Similarity}
    (h1 : simLe a b = true) (h2 : simLe b c = true) : simLe a c = true := by
  simp only [simLe, decide_eq_true_eq] at *
  rcases h1 with h1 | ⟨h1e, h1d⟩
  · rcases h2 with h2 | ⟨h2e, _⟩
    · exact Or.inl (h1.trans h2)
    · exact Or.inl (h2e ▸ h1)
  · rcases h2 with h2 | ⟨h2e, h2d⟩
    · exact Or.inl (h1e ▸ h2)
    · exact Or.inr ⟨h1e.trans h2e, h1d.trans h2d⟩

theorem mem_simInsert {x y : Similarity} {l : List Similarity} :
    y ∈ simInsert x l ↔ y = x ∨ y ∈ l := by
  induction l with
  | nil => simp [simInsert]
  | cons z zs ih =>
      by_cases h : simLe z x = true
      · simp only [simInsert, h, if_true, List.mem_cons, ih]
        tauto
      · simp [simInsert, h, List.mem_cons]

theorem mem_simSort {y : Similarity} {l : List Similarity} :
    y ∈ simSort l ↔ y ∈ l := by
  induction l with
  | nil => simp [simSort]
  | cons z zs ih =>
      simp only [simSort, mem_simInsert, List.mem_cons, ih]

theorem simInsert_pairwise {x : Similarity} {l : List Similarity}
    (h : l.Pairwise (fun a b => simLe a b = true)) :
    (simInsert x l).Pairwise (fun a b => simLe a b = true) := by
  induction l with
  | nil => simp [simInsert]
  | cons z zs ih =>
      rcases List.pairwise_cons.mp h with ⟨hz, hzs⟩
      by_cases hle : simLe z x = true
      · simp only [simInsert, hle, if_true]
        refine List.pairwise_cons.mpr ⟨?_, ih hzs⟩
        intro y hy
        rcases mem_simInsert.mp hy with rfl | hy
        · exact hle
        · exact hz y hy
      · simp only [simInsert, hle, if_false]
        refine List.pairwise_cons.mpr ⟨?_, h⟩
        intro y hy
        have hxz : simLe x z = true := by
          rcases simLe_total x z with h1 | h1
          · exact h1
          · exact absurd h1 hle
        rcases List.mem_cons.mp hy with rfl | hy
        · exact hxz
        · exact simLe_trans hxz (hz y hy)

theorem simSort_pairwise (l : List Similarity) :
    (simSort l).Pairwise (fun a b => simLe a b = true) := by
  induction l with
  | nil => simp [simSort]
  | cons z zs ih => exact simInsert_pairwise ih

theorem simSort_head_min {l : List Similarity} {h : Similarity} {t : List Similarity}
    (hs : simSort l = h :: t) {y : Similarity} (hy : y ∈ l) : simLe h y = true := by
  have hmem : y ∈ simSort l := mem_simSort.mpr hy
  rw [hs] at hmem
  rcases List.mem_cons.mp hmem with rfl | hmem
  · exact simLe_refl y
  · have := simSort_pairwise l
    rw [hs] at this
    exact (List.pairwise_cons.mp this).1 y hmem

/-! ## Store-level auxiliary lemmas -/

theorem index_transactions_aux (t : Transaction) (l : List String) :
    ∀ s : TStore,
      (l.foldl
        (fun s akahuId =>
          match mapGet s.akahuIdIndex akahuId with
          | some _ => s
          | none => { s with akahuIdIndex := mapSet s.akahuIdIndex akahuId t })
        s).transactions = s.transactions := by
  induction l with
  | nil => intro s; rfl
  | cons x xs ih =>
      intro s
      simp only [List.foldl_cons]
      rw [ih]
      cases mapGet s.akahuIdIndex x <;> rfl

theorem TStore.index_transactions (s : TStore) (t : Transaction) :
    (s.index t).transactions = mapSet s.transactions t.id t := by
  unfold TStore.index
  rw [index_transactions_aux]
  split
  · split <;> rfl
  · rfl

theorem deindex_transactions_aux (l : List String) :
    ∀ s : TStore,
      (l.foldl
        (fun s akahuId => { s with akahuIdIndex := mapDelete s.akahuIdIndex akahuId })
        s).transactions = s.transactions := by
  induction l with
  | nil => intro s; rfl
  | cons x xs ih =>
      intro s
      simp only [List.foldl_cons]
      rw [ih]

theorem TStore.deindex_transactions (s : TStore) (t : Transaction) :
    (s.deindex t).transactions = s.transactions := by
  unfold TStore.deindex
  rw [deindex_transactions_aux]
  cases t.fireflyId <;> rfl

theorem mergeTransactions_id (a b : Transaction) :
    (mergeTransactions a b).id = a.id := by
  unfold mergeTransactions
  dsimp only
  split <;> rfl

theorem findBestTransaction_mem {cmp : Transaction → Transaction → Bool}
    {t : Transaction} {l : List Transaction} {m : Transaction}
    (h : findBestTransaction cmp t l = some m) : m ∈ l := by
  unfold findBestTransaction at h
  dsimp only at h
  split at h
  · cases hc : l.filter (matchesKey cmp t) with
    | nil => rw [hc] at h; simp at h
    | cons c cs =>
        rw [hc] at h
        simp only [List.head?_cons, Option.some.injEq] at h
        have : m ∈ l.filter (matchesKey cmp t) := by
          rw [hc, ← h]; exact List.mem_cons_self _ _
        exact List.mem_of_mem_filter this
  · generalize hX : List.filter (fun x => decide (x.date < 3 * 24 * 60 * 60 * 1000))
      (List.map (fun other =>
        ({ date := dateDist t other
           description := compareTwoStrings t.description other.description
           transaction := other } : Similarity))
        (List.filter (matchesKey cmp t) l)) = X at h
    cases hs : simSort X with
    | nil => rw [hs] at h; simp at h
    | cons sh st =>
        rw [hs] at h
        simp only [List.head?_cons, Option.map_some', Option.some.injEq] at h
        have hmem : sh ∈ X := mem_simSort.mp (hs ▸ List.mem_cons_self _ _)
        rw [← hX] at hmem
        have hmem2 := List.mem_of_mem_filter hmem
        rcases List.mem_map.mp hmem2 with ⟨c, hc, hceq⟩
        have hshc : sh.transaction = c := by rw [← hceq]
        rw [← h, hshc]
        exact List.mem_of_mem_filter hc

/-! ## Claim C1 -/

/-- C1: when a self-transaction has two or more structural-key candidates in
the other pool, the chosen candidate lies within three days of the
self-transaction's date (the source even enforces the strict inequality),
attains the minimal absolute date distance among the candidates within
three days, and among candidates at equal date distance attains the
minimal (ascending) Sorensen-Dice description similarity. -/
theorem findBestTransaction_optimal
    (cmp : Transaction → Transaction → Bool) (t : Transaction)
    (ts : List Transaction)
    (h2 : 2 ≤ (ts.filter (matchesKey cmp t)).length)
    (b : Transaction) (hb : findBestTransaction cmp t ts = some b) :
    b ∈ ts.filter (matchesKey cmp t) ∧
    dateDist t b < 3 * 24 * 60 * 60 * 1000 ∧
    ∀ c ∈ ts.filter (matchesKey cmp t), dateDist t c < 3 * 24 * 60 * 60 * 1000 →
      dateDist t b < dateDist t c ∨
        (dateDist t b = dateDist t c ∧
          compareTwoStrings t.description b.description ≤
            compareTwoStrings t.description c.description) := by
  unfold findBestTransaction at hb
  dsimp only at hb
  have hnotlt : ¬ (ts.filter (matchesKey cmp t)).length < 2 := by omega
  rw [if_neg hnotlt] at hb
  set mk : Transaction → Similarity := fun other =>
    { date := dateDist t other
      description := compareTwoStrings t.description other.description
      transaction := other } with hmk
  set sims := ((ts.filter (matchesKey cmp t)).map mk).filter
    (fun x => x.date < 3 * 24 * 60 * 60 * 1000) with hsims
  cases hs : simSort sims with
  | nil => rw [hs] at hb; simp at hb
  | cons sh st =>
      rw [hs] at hb
      simp only [List.head?_cons, Option.map_some', Option.some.injEq] at hb
      have hshmem : sh ∈ sims := mem_simSort.mp (hs ▸ List.mem_cons_self _ _)
      have hshdate : sh.date < 3 * 24 * 60 * 60 * 1000 := by
        have := List.of_mem_filter hshmem
        simpa using this
      rcases List.mem_map.mp (List.mem_of_mem_filter hshmem) with ⟨c0, hc0, hc0eq⟩
      have hbc0 : b = c0 := by rw [← hb, ← hc0eq]
      have hshd : sh.date = dateDist t b := by rw [← hc0eq, hbc0]
      have hshdesc : sh.description = compareTwoStrings t.description b.description := by
        rw [← hc0eq, hbc0]
      refine ⟨hbc0 ▸ hc0, hshd ▸ hshdate, ?_⟩
      intro c hc hcd
      have hmkc : mk c ∈ sims := by
        rw [hsims]
        refine List.mem_filter.mpr ⟨List.mem_map.mpr ⟨c, hc, rfl⟩, ?_⟩
        simpa using hcd
      have hle := simSort_head_min hs (mem_simSort.mp (mem_simSort.mpr hmkc))
      simp only [simLe, decide_eq_true_eq] at hle
      rcases hle with hlt | ⟨heq, hdesc⟩
      · left
        rw [← hshd]
        simpa [hmk] using hlt
      · right
        constructor
        · rw [← hshd, heq]
        · rw [← hshdesc]
          simpa [hmk] using hdesc

/-- Concrete data for the C1 witness. -/
def c1T : Transaction :=
  ⟨1, none, ["trans_a"], "coffee", ⟨0, 0, 0⟩, 5, 1, 2, none, none, none⟩

/-- Nearer candidate for the C1 witness. -/
def c1B : Transaction :=
  ⟨10, some 7, ["trans_b"], "coffee shop", ⟨1000, 0, 0⟩, 5, 1, 2, none, none, none⟩

/-- Farther candidate for the C1 witness. -/
def c1C : Transaction :=
  ⟨11, none, ["trans_c"], "tea", ⟨2000, 0, 0⟩, 5, 1, 2, none, none, none⟩

/-- Witness for C1 at a concrete two-candidate pool. -/
theorem findBestTransaction_optimal_witness :
    c1B ∈ [c1B, c1C].filter (matchesKey (fun _ _ => true) c1T) ∧
    dateDist c1T c1B < 3 * 24 * 60 * 60 * 1000 ∧
    ∀ c ∈ [c1B, c1C].filter (matchesKey (fun _ _ => true) c1T),
      dateDist c1T c < 3 * 24 * 60 * 60 * 1000 →
      dateDist c1T c1B < dateDist c1T c ∨
        (dateDist c1T c1B = dateDist c1T c ∧
          compareTwoStrings c1T.description c1B.description ≤
            compareTwoStrings c1T.description c.description) :=
  findBestTransaction_optimal (fun _ _ => true) c1T [c1B, c1C] (by decide)
    c1B (by decide)

/-! ## Claim C2 -/

/-- C2: a fused pair saves a result whose firefly id is the self side's when
set and the other side's otherwise, whose akahu ids are the union, whose
foreign amount, foreign currency code and category name keep the self
side's value when set and take the other side's otherwise, and whose date
is the other side's exactly when that date carries a nonzero hour or
minute. -/
theorem mergeTransactions_spec (a b : Transaction) :
    ((mergeTransactions a b).fireflyId =
      if a.fireflyId.isSome then a.fireflyId else b.fireflyId) ∧
    (∀ x, x ∈ (mergeTransactions a b).akahuIds ↔ x ∈ a.akahuIds ∨ x ∈ b.akahuIds) ∧
    ((mergeTransactions a b).foreignAmount =
      if a.foreignAmount.isSome then a.foreignAmount else b.foreignAmount) ∧
    ((mergeTransactions a b).foreignCurrencyCode =
      if a.foreignCurrencyCode.isSome then a.foreignCurrencyCode else b.foreignCurrencyCode) ∧
    ((mergeTransactions a b).categoryName =
      if a.categoryName.isSome then a.categoryName else b.categoryName) ∧
    ((mergeTransactions a b).date =
      if b.date.hours ≠ 0 ∨ b.date.minutes ≠ 0 then b.date else a.date) := by
  unfold mergeTransactions
  dsimp only
  refine ⟨?_, ?_, ?_, ?_, ?_, ?_⟩
  · cases ha : a.fireflyId <;> simp only [ha] <;> split <;> simp
  · intro x
    split <;> simp [mem_setUnion]
  · cases hb : b.foreignAmount <;> cases ha : a.foreignAmount <;>
      simp only [ha, hb] <;> split <;> simp
  · cases hb : b.foreignCurrencyCode <;> cases ha : a.foreignCurrencyCode <;>
      simp only [ha, hb] <;> split <;> simp
  · cases hb : b.categoryName <;> cases ha : a.categoryName <;>
      simp only [ha, hb] <;> split <;> simp
  · split
    · next h => simp [if_pos (by tauto : b.date.hours ≠ 0 ∨ b.date.minutes ≠ 0)]
    · next h =>
        have : ¬ (b.date.hours ≠ 0 ∨ b.date.minutes ≠ 0) := by tauto
        simp [if_neg this]

/-! ## Claim C3 -/

/-- C3: when the saved transaction id exists, the save raises and leaves the
store untouched exactly when the stored firefly id is set and differs or
some stored akahu id is dropped; a successful save implies the firefly id
was preserved and the akahu ids grew, and replaces the stored entry with
the new transaction. -/
theorem TStore_save_spec (s : TStore) (t ex : Transaction)
    (hex : mapGet s.transactions t.id = some ex) :
    (((ex.fireflyId.isSome ∧ ex.fireflyId ≠ t.fireflyId) ∨
        ∃ a ∈ ex.akahuIds, a ∉ t.akahuIds) →
      ∃ e, s.save t = (s, some e)) ∧
    ((s.save t).2 = none →
      (ex.fireflyId.isSome → t.fireflyId = ex.fireflyId) ∧
      ∀ a ∈ ex.akahuIds, a ∈ t.akahuIds) ∧
    (¬ ((ex.fireflyId.isSome ∧ ex.fireflyId ≠ t.fireflyId) ∨
        ∃ a ∈ ex.akahuIds, a ∉ t.akahuIds) →
      s.save t = ((s.deindex ex).index t, none) ∧
      mapGet (s.save t).1.transactions t.id = some t) := by
  unfold TStore.save
  rw [hex]
  dsimp only
  by_cases hfid : ex.fireflyId.isSome ∧ ex.fireflyId ≠ t.fireflyId
  · rw [if_pos hfid]
    refine ⟨fun _ => ⟨_, rfl⟩, ?_, ?_⟩
    · intro h; simp at h
    · intro h; exact absurd (Or.inl hfid) h
  · rw [if_neg hfid]
    cases hfind : ex.akahuIds.find? (fun akahuId => !(decide (akahuId ∈ t.akahuIds))) with
    | some a =>
        rcases List.find?_some hfind with hpa
        have hmem := List.mem_of_find?_eq_some hfind
        simp only [Bool.not_eq_eq_eq_not, Bool.not_true, decide_eq_false_iff_not] at hpa
        refine ⟨fun _ => ⟨_, rfl⟩, ?_, ?_⟩
        · intro h; simp at h
        · intro h; exact absurd (Or.inr ⟨a, hmem, hpa⟩) h
    | none =>
        have hall : ∀ a ∈ ex.akahuIds, a ∈ t.akahuIds := by
          intro a ha
          have := List.find?_eq_none.mp hfind a ha
          simpa using this
        refine ⟨?_, ?_, ?_⟩
        · rintro (h | ⟨a, ha, hna⟩)
          · exact absurd h hfid
          · exact absurd (hall a ha) hna
        · intro _
          constructor
          · intro hsome
            by_contra hne
            exact hfid ⟨hsome, fun he => hne he.symm⟩
          · exact hall
        · intro _
          refine ⟨rfl, ?_⟩
          simp only
          rw [TStore.index_transactions, TStore.deindex_transactions]
          exact mapGet_mapSet_self _ _ _

/-- Concrete stored transaction for the C3 witness. -/
def c3Old : Transaction :=
  ⟨1, some 7, ["trans_a"], "old", ⟨0, 0, 0⟩, 5, 1, 2, none, none, none⟩

/-- Concrete replacement transaction for the C3 witness. -/
def c3New : Transaction :=
  ⟨1, some 7, ["trans_a", "trans_b"], "new", ⟨0, 0, 0⟩, 5, 1, 2, none, none, none⟩

/-- Concrete store for the C3 witness. -/
def c3Store : TStore :=
  ⟨[(1, c3Old)], [(7, c3Old)], [("trans_a", c3Old)]⟩

/-- Witness for C3: a compatible save replaces the stored entry. -/
theorem TStore_save_spec_witness :
    c3Store.save c3New = ((c3Store.deindex c3Old).index c3New, none) ∧
    mapGet (c3Store.save c3New).1.transactions c3New.id = some c3New :=
  (TStore_save_spec c3Store c3New c3Old (by decide)).2.2 (by decide)

/-! ## Claim C4 -/

/-- Unfolding lemma for concrete similarity computations. -/
theorem compareTwoStrings_eval (a b : String) :
    compareTwoStrings a b =
      if stripWhitespace a = stripWhitespace b then 1
      else if (stripWhitespace a).length < 2 ∨ (stripWhitespace b).length < 2 then 0
      else (2 * (interCount (bigrams (stripWhitespace a).data)
          (bigrams (stripWhitespace b).data)) : ℚ) /
        (((stripWhitespace a).length + (stripWhitespace b).length - 2 : Nat) : ℚ) := rfl

/-- Invariant of the fuzzy-matching scan: either no entry ever beat the
running rating and the state is unchanged, or the final state comes from
the first entry attaining the final maximum, all earlier entries scoring
strictly below it and all later ones at most it. -/
theorem fuzzyLoop_spec (src : String) :
    ∀ (l : List (String × Account)) (best : Option Account) (rating : ℚ),
      ((∀ p ∈ l, compareTwoStrings src p.1 ≤ rating) ∧
        fuzzyLoop src l best rating = (best, rating)) ∨
      (∃ pre p post, l = pre ++ p :: post ∧
        (fuzzyLoop src l best rating).1 = some p.2 ∧
        (fuzzyLoop src l best rating).2 = compareTwoStrings src p.1 ∧
        rating < compareTwoStrings src p.1 ∧
        (∀ q ∈ pre, compareTwoStrings src q.1 < compareTwoStrings src p.1) ∧
        (∀ q ∈ post, compareTwoStrings src q.1 ≤ compareTwoStrings src p.1)) := by
  intro l
  induction l with
  | nil =>
      intro best rating
      left
      exact ⟨by simp, rfl⟩
  | cons x xs ih =>
      intro best rating
      by_cases hx : rating < compareTwoStrings src x.1
      · have hstep : fuzzyLoop src (x :: xs) best rating =
            fuzzyLoop src xs (some x.2) (compareTwoStrings src x.1) := by
          simp [fuzzyLoop, hx]
        rcases ih (some x.2) (compareTwoStrings src x.1) with ⟨hall, heq⟩ | hex
        · right
          refine ⟨[], x, xs, by simp, ?_, ?_, hx, by simp, hall⟩
          · rw [hstep, heq]
          · rw [hstep, heq]
        · rcases hex with ⟨pre, p, post, hsplit, h1, h2, h3, h4, h5⟩
          right
          refine ⟨x :: pre, p, post, by simp [hsplit], ?_, ?_, ?_, ?_, h5⟩
          · rw [hstep, h1]
          · rw [hstep, h2]
          · exact hx.trans h3
          · intro q hq
            rcases List.mem_cons.mp hq with rfl | hq
            · exact h3
            · exact h4 q hq
      · have hstep : fuzzyLoop src (x :: xs) best rating =
            fuzzyLoop src xs best rating := by
          simp [fuzzyLoop, hx]
        rcases ih best rating with ⟨hall, heq⟩ | hex
        · left
          refine ⟨?_, by rw [hstep, heq]⟩
          intro p hp
          rcases List.mem_cons.mp hp with rfl | hp
          · exact le_of_not_lt hx
          · exact hall p hp
        · rcases hex with ⟨pre, p, post, hsplit, h1, h2, h3, h4, h5⟩
          right
          refine ⟨x :: pre, p, post, by simp [hsplit], ?_, ?_, h3, ?_, h5⟩
          · rw [hstep, h1]
          · rw [hstep, h2]
          · intro q hq
            rcases List.mem_cons.mp hq with rfl | hq
            · exact lt_of_le_of_lt (le_of_not_lt hx) h3
            · exact h4 q hq

/-- C4, corrected: a successful fuzzy lookup returns a strictly positive
maximal rating together with the first index entry attaining it; the
lookup fails not only on an empty name index but exactly when no entry
scores above zero. -/
theorem getByNameFuzzy_spec (s : Accounts) (query : String) :
    (∀ a r, s.getByNameFuzzy query = some (a, r) →
      0 < r ∧
      (∃ pre p post, s.nameIndex = pre ++ p :: post ∧ p.2 = a ∧
        compareTwoStrings (normalizeName query) p.1 = r ∧
        (∀ q ∈ pre, compareTwoStrings (normalizeName query) q.1 < r) ∧
        (∀ q ∈ post, compareTwoStrings (normalizeName query) q.1 ≤ r))) ∧
    (s.getByNameFuzzy query = none ↔
      ∀ p ∈ s.nameIndex, compareTwoStrings (normalizeName query) p.1 ≤ 0) := by
  unfold Accounts.getByNameFuzzy
  rcases fuzzyLoop_spec (normalizeName query) s.nameIndex none 0 with
    ⟨hall, heq⟩ | ⟨pre, p, post, hsplit, h1, h2, h3, h4, h5⟩
  · rw [heq]
    constructor
    · intro a r h
      simp at h
    · simp only [true_iff]
      exact hall
  · have hres : fuzzyLoop (normalizeName query) s.nameIndex none 0 =
        (some p.2, compareTwoStrings (normalizeName query) p.1) := by
      rw [← h1, ← h2]
    rw [hres]
    constructor
    · intro a r h
      simp only [Option.some.injEq, Prod.mk.injEq] at h
      obtain ⟨ha, hr⟩ := h
      refine ⟨hr ▸ h3, pre, p, post, hsplit, ha, hr, ?_, ?_⟩
      · intro q hq; rw [← hr]; exact h4 q hq
      · intro q hq; rw [← hr]; exact h5 q hq
    · constructor
      · intro h; simp at h
      · intro hall2
        have hp : p ∈ s.nameIndex := by
          rw [hsplit]; exact List.mem_append_right _ (List.mem_cons_self _ _)
        exact absurd (lt_of_lt_of_le h3 (hall2 p hp)) (lt_irrefl 0)

/-- Account used by the C4 concrete stores. -/
def c4Account : Account :=
  ⟨1, some ⟨some 5, .asset, none⟩, some ⟨some 5, .asset, none⟩, some "acc_1",
    "Zz", [], [("zz", "Zz")]⟩

/-- Concrete account store whose single indexed name scores zero against
the query used in the counterexample. -/
def c4Store : Accounts :=
  ⟨[(1, c4Account)], [(5, c4Account)], [("acc_1", c4Account)], [], [("zz", c4Account)]⟩

/-- Counterexample to C4 as stated: the name index is nonempty and yet the
fuzzy lookup fails, because every rating is zero. -/
theorem getByNameFuzzy_nonempty_fails :
    c4Store.getByNameFuzzy "ab" = none ∧ c4Store.nameIndex ≠ [] := by
  constructor
  · have h0 : compareTwoStrings (normalizeName "ab") "zz" = 0 := by
      rw [compareTwoStrings_eval]
      norm_num [show interCount (bigrams (stripWhitespace (normalizeName "ab")).data)
          (bigrams (stripWhitespace "zz").data) = 0 from by decide,
        show stripWhitespace (normalizeName "ab") ≠ stripWhitespace "zz" from by decide,
        show ¬((stripWhitespace (normalizeName "ab")).length < 2 ∨
          (stripWhitespace "zz").length < 2) from by decide]
    simp [Accounts.getByNameFuzzy, c4Store, fuzzyLoop, h0]
  · decide

/-- Witness for C4 at a query that matches the indexed name exactly. -/
theorem getByNameFuzzy_spec_witness :
    0 < (1 : ℚ) ∧
    (∃ pre p post, c4Store.nameIndex = pre ++ p :: post ∧ p.2 = c4Account ∧
      compareTwoStrings (normalizeName "Zz") p.1 = 1 ∧
      (∀ q ∈ pre, compareTwoStrings (normalizeName "Zz") q.1 < 1) ∧
      (∀ q ∈ post, compareTwoStrings (normalizeName "Zz") q.1 ≤ 1)) :=
  (getByNameFuzzy_spec c4Store "Zz").1 c4Account 1 (by rfl)

/-! ## Claim C5 -/

/-- C5: the ledger transaction kind is the pure function of the ordered
account-type pair given by the fixed table, and whenever both roles
resolve with firefly ids, `transformTransaction` succeeds with the table's
kind on the eight valid pairs and raises on every other pair. -/
theorem transactionMapping_spec :
    (transactionMapping .asset .asset = some .transfer ∧
     transactionMapping .asset .liability = some .withdrawal ∧
     transactionMapping .asset .expense = some .withdrawal ∧
     transactionMapping .asset .revenue = none ∧
     transactionMapping .liability .asset = some .deposit ∧
     transactionMapping .liability .liability = some .transfer ∧
     transactionMapping .liability .expense = some .withdrawal ∧
     transactionMapping .liability .revenue = none ∧
     transactionMapping .expense .asset = none ∧
     transactionMapping .expense .liability = none ∧
     transactionMapping .expense .expense = none ∧
     transactionMapping .expense .revenue = none ∧
     transactionMapping .revenue .asset = some .deposit ∧
     transactionMapping .revenue .liability = some .deposit ∧
     transactionMapping .revenue .expense = none ∧
     transactionMapping .revenue .revenue = none) ∧
    ∀ (t : Transaction) (accounts : Accounts) (source destination : Role)
      (sourceFid destFid : Nat),
      (accounts.get t.sourceId).bind Account.source = some source →
      (accounts.get t.destinationId).bind Account.destination = some destination →
      source.fireflyId = some sourceFid →
      destination.fireflyId = some destFid →
      (∀ ty, transactionMapping source.type destination.type = some ty →
        ∃ up, transformTransaction t accounts = Except.ok up ∧ up.type = ty) ∧
      (transactionMapping source.type destination.type = none →
        ∃ e, transformTransaction t accounts = Except.error e) := by
  constructor
  · exact ⟨rfl, rfl, rfl, rfl, rfl, rfl, rfl, rfl, rfl, rfl, rfl, rfl, rfl, rfl, rfl, rfl⟩
  · intro t accounts source destination sourceFid destFid hsrc hdst hsf hdf
    unfold transformTransaction
    rw [hsrc]
    dsimp only
    rw [hsf]
    dsimp only
    rw [hdst]
    dsimp only
    rw [hdf]
    dsimp only
    constructor
    · intro ty hty
      rw [hty]
      exact ⟨_, rfl, rfl⟩
    · intro hnone
      rw [hnone]
      exact ⟨_, rfl⟩

/-- Concrete asset account for the C5 witness. -/
def c5Asset : Account :=
  ⟨1, some ⟨some 11, .asset, none⟩, some ⟨some 11, .asset, none⟩, none, "Chq", [],
    [("chq", "Chq")]⟩

/-- Concrete expense account for the C5 witness. -/
def c5Expense : Account :=
  ⟨2, none, some ⟨some 22, .expense, none⟩, none, "Food", [], [("food", "Food")]⟩

/-- Concrete account store for the C5 witness. -/
def c5Accounts : Accounts :=
  ⟨[(1, c5Asset), (2, c5Expense)], [(11, c5Asset), (22, c5Expense)], [],
    [], [("chq", c5Asset), ("food", c5Expense)]⟩

/-- Concrete transaction for the C5 witness. -/
def c5Trans : Transaction :=
  ⟨1, some 9, ["trans_a"], "food shop", ⟨0, 0, 0⟩, 5, 1, 2, none, none, none⟩

/-- Witness for C5: an asset-to-expense transaction exports as a
withdrawal. -/
theorem transactionMapping_spec_witness :
    ∃ up, transformTransaction c5Trans c5Accounts = Except.ok up ∧
      up.type = TransactionTypeProperty.withdrawal :=
  (transactionMapping_spec.2 c5Trans c5Accounts ⟨some 11, .asset, none⟩
    ⟨some 22, .expense, none⟩ 11 22 (by decide) (by decide) (by decide) (by decide)).1
    TransactionTypeProperty.withdrawal rfl

/-! ## Claim C6 -/

theorem mapGet_mapSet_isSome {κ α : Type} [DecidableEq κ]
    (m : List (κ × α)) (key k : κ) (v : α) :
    (mapGet (mapSet m key v) k).isSome ↔ (mapGet m k).isSome ∨ k = key := by
  by_cases h : k = key
  · subst h
    simp [mapGet_mapSet_self]
  · rw [mapGet_mapSet_ne m key k v h]
    simp [h]

theorem mapGet_mapUnionJS_isSome (a b : List (String × String)) (k : String) :
    (mapGet (mapUnionJS a b) k).isSome ↔
      (mapGet a k).isSome ∨ (mapGet b k).isSome := by
  induction b generalizing a with
  | nil => simp [mapUnionJS, mapGet]
  | cons p bs ih =>
      unfold mapUnionJS at ih ⊢
      rw [List.foldl_cons, ih]
      rw [mapGet_mapSet_isSome]
      by_cases hk : k = p.1
      · subst hk
        simp [mapGet]
      · have : p.1 ≠ k := fun hh => hk hh.symm
        simp [mapGet, this]
        tauto

/-- C6: a successful ledger-import account merge requires the same
normalized primary name, compatible akahu ids, at most one source role and
at most one destination role between the two accounts, and produces the
pre-existing id with the unions of bank numbers and alternate names; the
violation of any of these conditions raises. -/
theorem mergeAccounts_spec (a b : Account) :
    (∀ m, mergeAccounts a b = Except.ok m →
      normalizeName a.name = normalizeName b.name ∧
      (a.akahuId = none ∨ b.akahuId = none ∨ a.akahuId = b.akahuId) ∧
      ¬ (a.source.isSome ∧ b.source.isSome) ∧
      ¬ (a.destination.isSome ∧ b.destination.isSome) ∧
      m.id = a.id ∧
      (∀ x, x ∈ m.bankNumbers ↔ x ∈ a.bankNumbers ∨ x ∈ b.bankNumbers) ∧
      (∀ k, (mapGet m.alternateNames k).isSome ↔
        (mapGet a.alternateNames k).isSome ∨ (mapGet b.alternateNames k).isSome)) ∧
    ((normalizeName a.name ≠ normalizeName b.name ∨
      (a.akahuId.isSome ∧ b.akahuId.isSome ∧ a.akahuId ≠ b.akahuId) ∨
      (a.source.isSome ∧ b.source.isSome) ∨
      (a.destination.isSome ∧ b.destination.isSome)) →
      ∃ e, mergeAccounts a b = Except.error e) := by
  constructor
  · intro m hm
    unfold mergeAccounts at hm
    by_cases h1 : a.source.isSome ∧ b.source.isSome
    · rw [if_pos h1] at hm; simp at hm
    rw [if_neg h1] at hm
    by_cases h2 : a.destination.isSome ∧ b.destination.isSome
    · rw [if_pos h2] at hm; simp at hm
    rw [if_neg h2] at hm
    by_cases h3 : a.akahuId.isSome ∧ b.akahuId.isSome ∧ a.akahuId ≠ b.akahuId
    · rw [if_pos h3] at hm; simp at hm
    rw [if_neg h3] at hm
    by_cases h4 : a.name ≠ b.name
    · rw [if_pos h4] at hm; simp at hm
    rw [if_neg h4] at hm
    simp only [Except.ok.injEq] at hm
    have hname : a.name = b.name := not_ne_iff.mp h4
    refine ⟨by rw [hname], ?_, h1, h2, ?_, ?_, ?_⟩
    · by_cases ha : a.akahuId = none
      · exact Or.inl ha
      by_cases hb2 : b.akahuId = none
      · exact Or.inr (Or.inl hb2)
      refine Or.inr (Or.inr ?_)
      by_contra hne
      exact h3 ⟨Option.isSome_iff_ne_none.mpr ha, Option.isSome_iff_ne_none.mpr hb2, hne⟩
    · rw [← hm]
    · intro x
      rw [← hm]
      exact mem_setUnion
    · intro k
      rw [← hm]
      simp only
      exact mapGet_mapUnionJS_isSome a.alternateNames b.alternateNames k
  · intro hviol
    unfold mergeAccounts
    by_cases h1 : a.source.isSome ∧ b.source.isSome
    · rw [if_pos h1]; exact ⟨_, rfl⟩
    rw [if_neg h1]
    by_cases h2 : a.destination.isSome ∧ b.destination.isSome
    · rw [if_pos h2]; exact ⟨_, rfl⟩
    rw [if_neg h2]
    by_cases h3 : a.akahuId.isSome ∧ b.akahuId.isSome ∧ a.akahuId ≠ b.akahuId
    · rw [if_pos h3]; exact ⟨_, rfl⟩
    rw [if_neg h3]
    by_cases h4 : a.name ≠ b.name
    · rw [if_pos h4]; exact ⟨_, rfl⟩
    rw [if_neg h4]
    exfalso
    have hname : a.name = b.name := not_ne_iff.mp h4
    rcases hviol with hv | hv | hv | hv
    · exact hv (by rw [hname])
    · exact h3 hv
    · exact h1 hv
    · exact h2 hv

/-- First account for the C6 witness: an asset account. -/
def c6A : Account :=
  ⟨3, some ⟨some 31, .revenue, none⟩, none, some "merchant_1", "Cafe",
    ["01-0002-0000003-004"], [("cafe", "Cafe")]⟩

/-- Second account for the C6 witness: an expense duplicate of the same
party. -/
def c6B : Account :=
  ⟨0, none, some ⟨some 32, .expense, none⟩, none, "Cafe",
    ["01-0002-0000003-005"], [("cafe", "Cafe"), ("the cafe", "The Cafe")]⟩

/-- The merged account produced by the C6 witness pair. -/
def c6M : Account :=
  ⟨3, some ⟨some 31, .revenue, none⟩, some ⟨some 32, .expense, none⟩,
    some "merchant_1", "Cafe",
    ["01-0002-0000003-004", "01-0002-0000003-005"],
    [("cafe", "Cafe"), ("the cafe", "The Cafe")]⟩

/-- Witness for C6 at a concrete mergeable pair. -/
theorem mergeAccounts_spec_witness :
    normalizeName c6A.name = normalizeName c6B.name ∧
    (c6A.akahuId = none ∨ c6B.akahuId = none ∨ c6A.akahuId = c6B.akahuId) ∧
    ¬ (c6A.source.isSome ∧ c6B.source.isSome) ∧
    ¬ (c6A.destination.isSome ∧ c6B.destination.isSome) ∧
    c6M.id = c6A.id ∧
    (∀ x, x ∈ c6M.bankNumbers ↔ x ∈ c6A.bankNumbers ∨ x ∈ c6B.bankNumbers) ∧
    (∀ k, (mapGet c6M.alternateNames k).isSome ↔
      (mapGet c6A.alternateNames k).isSome ∨ (mapGet c6B.alternateNames k).isSome) :=
  (mergeAccounts_spec c6A c6B).1 c6M (by rfl)

/-! ## Claim C7 -/

theorem updateAccountWrites_isAccountWrite {a : Account} {o : Option Account}
    {sel : RoleSelect} {w : Write} (h : w ∈ updateAccountWrites a o sel) :
    isAccountWrite w := by
  unfold updateAccountWrites at h
  rcases hrole : selectRole a sel with _ | role
  · rw [hrole] at h; simp at h
  · rw [hrole] at h
    dsimp only at h
    split at h
    · simp at h
    · split at h <;> simp_all [isAccountWrite]

theorem exportAccStep_isAccountWrite (cur : Accounts) (ws : List Write)
    (p : Nat × Account) (hws : ∀ w ∈ ws, isAccountWrite w) :
    ∀ w ∈ exportAccStep cur ws p, isAccountWrite w := by
  intro w hw
  unfold exportAccStep at hw
  dsimp only at hw
  split at hw
  · rcases List.mem_append.mp hw with hw | hw
    · rcases List.mem_append.mp hw with hw | hw
      · exact hws w hw
      · exact updateAccountWrites_isAccountWrite hw
    · exact updateAccountWrites_isAccountWrite hw
  · rcases List.mem_append.mp hw with hw | hw
    · exact hws w hw
    · exact updateAccountWrites_isAccountWrite hw

theorem exportAccountsWrites_isAccountWrite (cur mod : Accounts) :
    ∀ w ∈ exportAccountsWrites cur mod, isAccountWrite w := by
  unfold exportAccountsWrites
  generalize mod.accounts = l
  have haux : ∀ (l : List (Nat × Account)) (ws : List Write),
      (∀ w ∈ ws, isAccountWrite w) →
      ∀ w ∈ l.foldl (exportAccStep cur) ws, isAccountWrite w := by
    intro l
    induction l with
    | nil => intro ws hws; simpa using hws
    | cons p rest ih =>
        intro ws hws
        rw [List.foldl_cons]
        exact ih _ (exportAccStep_isAccountWrite cur ws p hws)
  exact haux l [] (by simp)

theorem exportTransStep_skip (T : TStore) (A : Accounts)
    (hnodup : (T.transactions.map Prod.fst).Nodup)
    (hwf : ∀ p ∈ T.transactions, p.1 = p.2.id)
    (p : Nat × Transaction) (hp : p ∈ T.transactions)
    (hok : ∃ u, transformTransaction p.2 A = Except.ok u)
    (ws : List Write) : exportTransStep T A ws p = Except.ok ws := by
  obtain ⟨u, hu⟩ := hok
  have hget : mapGet T.transactions p.2.id = some p.2 := by
    rw [← hwf p hp]
    exact mapGet_of_mem_nodup hnodup hp
  unfold exportTransStep
  dsimp only
  rw [hu]
  show Except.bind (Except.ok u) _ = Except.ok ws
  dsimp only [Except.bind]
  rw [hget]
  dsimp only
  rw [hu]
  show Except.bind (Except.ok u) _ = Except.ok ws
  dsimp only [Except.bind]
  rw [if_pos rfl]
  rfl

theorem export_foldlM_skip (T : TStore) (A : Accounts)
    (hnodup : (T.transactions.map Prod.fst).Nodup)
    (hwf : ∀ p ∈ T.transactions, p.1 = p.2.id) :
    ∀ l : List (Nat × Transaction), (∀ p ∈ l, p ∈ T.transactions) →
      (∀ p ∈ l, ∃ u, transformTransaction p.2 A = Except.ok u) →
      ∀ ws : List Write,
        l.foldlM (exportTransStep T A) ws = Except.ok ws := by
  intro l
  induction l with
  | nil => intro _ _ ws; rfl
  | cons p rest ih =>
      intro hsub hok ws
      have hstep := exportTransStep_skip T A hnodup hwf p
        (hsub p (List.mem_cons_self _ _)) (hok p (List.mem_cons_self _ _)) ws
      rw [List.foldlM_cons, hstep]
      show Except.bind (Except.ok ws) _ = Except.ok ws
      dsimp only [Except.bind]
      exact ih (fun q hq => hsub q (List.mem_cons_of_mem _ hq))
        (fun q hq => hok q (List.mem_cons_of_mem _ hq)) ws

/-- C7, corrected: with the modified stores structurally equal to the
originals, a pre-pass that leaves the accounts unchanged and payload
building that succeeds on every transaction, the exporter issues zero
transaction writes — every emitted write is an account write.  Account
writes are not zero in general (see the counterexample), because the
rebuilt notes payload of an account is compared against the raw trimmed
notes stored in the original role. -/
theorem exportTransactions_no_mods (T : TStore) (A : Accounts)
    (hnodup : (T.transactions.map Prod.fst).Nodup)
    (hwf : ∀ p ∈ T.transactions, p.1 = p.2.id)
    (hpre : prePassAll T A = Except.ok A)
    (hOK : ∀ p ∈ T.transactions, ∃ u, transformTransaction p.2 A = Except.ok u) :
    exportTransactionsWrites T T A A = Except.ok (exportAccountsWrites A A) ∧
    ∀ w ∈ exportAccountsWrites A A, isAccountWrite w := by
  refine ⟨?_, exportAccountsWrites_isAccountWrite A A⟩
  unfold exportTransactionsWrites
  rw [hpre]
  show Except.bind (Except.ok A) _ = _
  dsimp only [Except.bind]
  rw [export_foldlM_skip T A hnodup hwf T.transactions (fun p hp => hp) hOK []]
  show Except.bind (Except.ok []) _ = _
  dsimp only [Except.bind]
  rw [List.append_nil]
  rfl

/-- Account for the C7 stores: its akahu id is set while its role notes are
empty, so the rebuilt notes differ from the stored ones. -/
def c7Account : Account :=
  ⟨1, some ⟨some 5, .asset, none⟩, some ⟨some 5, .asset, none⟩, some "acc_1",
    "A", [], [("a", "A")]⟩

/-- Concrete account store for C7. -/
def c7Accounts : Accounts :=
  ⟨[(1, c7Account)], [(5, c7Account)], [("acc_1", c7Account)], [],
    [("a", c7Account)]⟩

/-- Counterexample to C7 as stated: with the modified stores equal to the
original snapshots the exporter still issues an account update, because
the rebuilt notes block differs from the stored empty notes. -/
theorem exportTransactions_no_mods_counterexample :
    exportTransactionsWrites TStore.empty TStore.empty c7Accounts c7Accounts =
      Except.ok [Write.updateAcc 5 ⟨"A", "", "**Akahu ID** `acc_1`"⟩] ∧
    (Write.updateAcc 5 (⟨"A", "", "**Akahu ID** `acc_1`"⟩ : UpdateAccount))
        :: ([] : List Write) ≠ [] :=
  ⟨by rfl, by decide⟩

/-- Witness for C7 at the concrete stores. -/
theorem exportTransactions_no_mods_witness :
    exportTransactionsWrites TStore.empty TStore.empty c7Accounts c7Accounts =
      Except.ok (exportAccountsWrites c7Accounts c7Accounts) ∧
    ∀ w ∈ exportAccountsWrites c7Accounts c7Accounts, isAccountWrite w :=
  exportTransactions_no_mods TStore.empty c7Accounts (by decide) (by decide)
    (by rfl) (by intro p hp; simp [TStore.empty] at hp)

/-! ## Claim C8 -/

theorem replaceFirst_empty (s : String) : replaceFirst s "" = s := by
  simp [replaceFirst]

theorem fuzzyTail_eq (accounts : Accounts) (t : AkahuTransaction) (meta : AkahuMeta) :
    (match accounts.getByNameFuzzy t.description with
     | none => (Except.error "Could not find an account name to match" : Except String Account)
     | some m =>
         match accounts.getByNameFuzzy (replaceFirst t.description (meta.reference.getD "")) with
         | none => Except.error "Could not find an account name to match"
         | some nm => Except.ok (if m.2 < nm.2 then nm.1 else m.1)) =
    (match accounts.getByNameFuzzy t.description with
     | none => Except.error "Could not find an account name to match"
     | some m =>
         match meta.reference with
         | some ref =>
             match accounts.getByNameFuzzy (replaceFirst t.description ref) with
             | none => Except.error "Could not find an account name to match"
             | some nm => Except.ok (if m.2 < nm.2 then nm.1 else m.1)
         | none => Except.ok m.1) := by
  cases hF : accounts.getByNameFuzzy t.description with
  | none => rfl
  | some m =>
      cases href : meta.reference with
      | some ref => simp [href]
      | none => simp [href, replaceFirst_empty, hF, lt_irrefl]

/-- C8: the counterparty resolution of the feed importer coincides with the
spec's fixed strategy cascade: first succeeding strategy among the
interest name, the merchant akahu id and the normalized bank number, and
otherwise the fuzzy fallback that also tries the description with the
reference removed and keeps the higher score. -/
theorem findAccount_follows_spec (accounts : Accounts) (t : AkahuTransaction) :
    findAccount accounts t = specFindAccount accounts t := by
  unfold findAccount specFindAccount specStrategies specFuzzy
  dsimp only
  cases hI : containsSubstr (jsLower t.description) "interest" <;>
  cases hN : accounts.getByName "Interest" <;>
  cases hM : t.merchant <;>
  cases hMeta : t.meta <;>
  simp only [hI, hN, hM, hMeta] <;>
  (try rw [fuzzyTail_eq]) <;>
  (repeat (first | rfl | (split <;> try rfl))) <;>
  simp_all [replaceFirst_empty, lt_irrefl]

/-! ## Claim C9 -/

/-- The shared role record of the C9 stores. -/
def c9Role : Role := ⟨some 5, .asset, none⟩

/-- The stored heap account of the C9 stores: its source role lives at heap
reference 0, its bank-number set at reference 1 and its alternate-name map
at reference 2. -/
def c9HeapAccount : HeapAccount := ⟨1, some 0, none, some "acc_1", "A", 1, 2⟩

/-- The concrete heap store of the C9 counterexample. -/
def c9Heap : AccountsHeap :=
  ⟨[(0, c9Role)], [(1, ["01-0002-0000003-004"])], [(2, [("a", "A")])], 3,
    [(1, c9HeapAccount)]⟩

/-- Counterexample to C9 as stated: the clone returned by `get` shares the
nested source role record, so writing through the clone's role reference
changes the account state later observed through the store. -/
theorem heapGet_clone_counterexample :
    (heapGet c9Heap 1).2 = some { c9HeapAccount with bankNumbers := 3, alternateNames := 4 } ∧
    ({ c9HeapAccount with bankNumbers := 3, alternateNames := 4 } : HeapAccount).source = some 0 ∧
    observeAccount (writeRole (heapGet c9Heap 1).1 0 ⟨some 5, .expense, none⟩) 1 ≠
      observeAccount c9Heap 1 := by
  refine ⟨by decide, by decide, by decide⟩

/-- C9, corrected: the clone returned by `get` is aliasing-safe for the
bank-number set and the alternate-name map (they are fresh heap objects,
so writing them never changes what the store observes for any account),
but the nested source and destination role records are shared by
reference with the stored account. -/
theorem heapGet_clone_spec (h : AccountsHeap) (id : Nat) (a c : HeapAccount)
    (h2 : AccountsHeap) (hwf : heapWF h)
    (ha : mapGet h.accounts id = some a)
    (hget : heapGet h id = (h2, some c)) :
    c.source = a.source ∧ c.destination = a.destination ∧
    (∀ id2 v, observeAccount (writeSet h2 c.bankNumbers v) id2 = observeAccount h2 id2) ∧
    (∀ id2 v, observeAccount (writeMapRef h2 c.alternateNames v) id2 = observeAccount h2 id2) := by
  unfold heapGet at hget
  rw [ha] at hget
  dsimp only [cloneAccount] at hget
  obtain ⟨hh2, hc⟩ := Prod.mk.injEq .. ▸ hget
  have hceq : c = { a with bankNumbers := h.nextRef, alternateNames := h.nextRef + 1 } := by
    cases hc2 : c
    simp only [hc2, Option.some.injEq] at hc
    rw [← hc]
  have hh2acc : h2.accounts = h.accounts := by rw [← hh2]
  have hh2roles : h2.roles = h.roles := by rw [← hh2]
  refine ⟨by rw [hceq], by rw [hceq], ?_, ?_⟩
  · intro id2 v
    unfold observeAccount
    cases hb : mapGet h2.accounts id2 with
    | none => simp [writeSet, hb]
    | some a2 =>
        have ha2 : (id2, a2) ∈ h.accounts := mapGet_mem (hh2acc ▸ hb)
        have hlt : a2.bankNumbers < h.nextRef := (hwf _ ha2).1
        simp only [writeSet, hb, Option.map_some']
        unfold resolveAccount
        rw [hceq]
        dsimp only
        rw [mapGet_mapSet_ne h2.sets h.nextRef a2.bankNumbers v (by omega)]
  · intro id2 v
    unfold observeAccount
    cases hb : mapGet h2.accounts id2 with
    | none => simp [writeMapRef, hb]
    | some a2 =>
        have ha2 : (id2, a2) ∈ h.accounts := mapGet_mem (hh2acc ▸ hb)
        have hlt : a2.alternateNames < h.nextRef := (hwf _ ha2).2
        simp only [writeMapRef, hb, Option.map_some']
        unfold resolveAccount
        rw [hceq]
        dsimp only
        rw [mapGet_mapSet_ne h2.maps (h.nextRef + 1) a2.alternateNames v (by omega)]

/-- Witness for C9 at the concrete heap. -/
theorem heapGet_clone_spec_witness :
    ({ c9HeapAccount with bankNumbers := 3, alternateNames := 4 } : HeapAccount).source =
      c9HeapAccount.source ∧
    ({ c9HeapAccount with bankNumbers := 3, alternateNames := 4 } : HeapAccount).destination =
      c9HeapAccount.destination ∧
    (∀ id2 v, observeAccount
      (writeSet (heapGet c9Heap 1).1
        ({ c9HeapAccount with bankNumbers := 3, alternateNames := 4 } : HeapAccount).bankNumbers v) id2 =
      observeAccount (heapGet c9Heap 1).1 id2) ∧
    (∀ id2 v, observeAccount
      (writeMapRef (heapGet c9Heap 1).1
        ({ c9HeapAccount with bankNumbers := 3, alternateNames := 4 } : HeapAccount).alternateNames v) id2 =
      observeAccount (heapGet c9Heap 1).1 id2) :=
  heapGet_clone_spec c9Heap 1 c9HeapAccount
    { c9HeapAccount with bankNumbers := 3, alternateNames := 4 }
    (heapGet c9Heap 1).1 (by unfold heapWF; decide) (by decide) (by rfl)

/-! ## Claim C10 -/

theorem saveMerged_transactions (s : TStore) (old merged : Transaction) :
    (s.saveMerged old merged).transactions =
      mapSet s.transactions merged.id merged := by
  unfold TStore.saveMerged
  rw [TStore.index_transactions, TStore.deindex_transactions]

theorem mergePass1_subsets (cmp : Transaction → Transaction → Bool)
    (combine : Transaction → Transaction → Transaction) :
    ∀ (llist : List (Nat × Transaction)) (store : TStore)
      (left right : List (Nat × Transaction)),
      (∀ p ∈ (mergePass1 cmp combine llist store left right).2.1, p ∈ left) ∧
      (∀ p ∈ (mergePass1 cmp combine llist store left right).2.2, p ∈ right) ∧
      ((mergePass1 cmp combine llist store left right).2.2.map Prod.fst).Sublist
        (right.map Prod.fst) := by
  intro llist
  induction llist with
  | nil =>
      intro store left right
      exact ⟨fun p hp => hp, fun p hp => hp, List.Sublist.refl _⟩
  | cons hd rest ih =>
      intro store left right
      obtain ⟨k, t⟩ := hd
      unfold mergePass1
      cases hfind : findBestTransaction cmp t (right.map Prod.snd) with
      | none =>
          dsimp only
          exact ih store left right
      | some m =>
          dsimp only
          obtain ⟨ih1, ih2, ih3⟩ := ih (store.saveMerged t (combine (mergeTransactions t m) m))
            (mapDelete left t.id) (mapDelete right m.id)
          exact ⟨fun p hp => mapDelete_subset (ih1 p hp),
            fun p hp => mapDelete_subset (ih2 p hp),
            ih3.trans (mapDelete_keys_sublist right m.id)⟩

theorem mergePass2_right_subset (cmp : Transaction → Transaction → Bool)
    (combine : Transaction → Transaction → Transaction) :
    ∀ (rlist : List (Nat × Transaction)) (store : TStore)
      (left right : List (Nat × Transaction)),
      ∀ p ∈ (mergePass2 cmp combine rlist store left right).2.2, p ∈ right := by
  intro rlist
  induction rlist with
  | nil => intro store left right p hp; exact hp
  | cons hd rest ih =>
      intro store left right
      obtain ⟨k, t⟩ := hd
      unfold mergePass2
      cases hfind : findBestTransaction cmp t (left.map Prod.snd) with
      | none =>
          dsimp only
          exact ih (store.index t) left right
      | some m =>
          dsimp only
          intro p hp
          exact mapDelete_subset
            (ih (store.saveMerged m (combine (mergeTransactions m t) t))
              (mapDelete left m.id) (mapDelete right t.id) p hp)

theorem mergePass2_spec (cmp : Transaction → Transaction → Bool)
    (combine : Transaction → Transaction → Transaction)
    (hcomb : ∀ a b, (combine a b).id = a.id) :
    ∀ (rlist : List (Nat × Transaction)) (store : TStore)
      (left right : List (Nat × Transaction)),
      (rlist.map Prod.fst).Nodup →
      (∀ p ∈ rlist, p.1 = p.2.id) →
      (∀ p ∈ left, p.1 = p.2.id) →
      (∀ k ∈ left.map Prod.fst, k ∉ rlist.map Prod.fst) →
      (right.map Prod.fst).Nodup →
      (∀ p ∈ right, p ∈ rlist ∨
        (mapGet store.transactions p.1 = some p.2 ∧ p.1 ∉ rlist.map Prod.fst ∧
          p.1 ∉ left.map Prod.fst)) →
      ∀ p ∈ (mergePass2 cmp combine rlist store left right).2.2,
        mapGet (mergePass2 cmp combine rlist store left right).1.transactions p.1 =
          some p.2 := by
  intro rlist
  induction rlist with
  | nil =>
      intro store left right _ _ _ _ _ hstored p hp
      rcases hstored p hp with hfalse | ⟨hget, _, _⟩
      · simp at hfalse
      · exact hget
  | cons hd rest ih =>
      intro store left right hnodup hrwf hlwf hdisj hrnodup hstored
      obtain ⟨k, t⟩ := hd
      have hkt : k = t.id := hrwf (k, t) (List.mem_cons_self _ _)
      rw [List.map_cons] at hnodup
      have hnodup' := (List.nodup_cons.mp hnodup).2
      have hknotin : k ∉ rest.map Prod.fst := (List.nodup_cons.mp hnodup).1
      unfold mergePass2
      cases hfind : findBestTransaction cmp t (left.map Prod.snd) with
      | none =>
          dsimp only
          refine ih (store.index t) left right hnodup'
            (fun p hp => hrwf p (List.mem_cons_of_mem _ hp)) hlwf
            (fun k2 hk2 hk2r => hdisj k2 hk2
              (by simpa using Or.inr hk2r)) hrnodup ?_
          intro p hp
          rcases hstored p hp with hmem | ⟨hget, hnr, hnl⟩
          · rcases List.mem_cons.mp hmem with rfl | hmem2
            · right
              refine ⟨?_, hknotin, ?_⟩
              · rw [TStore.index_transactions]
                dsimp only
                rw [hkt]
                exact mapGet_mapSet_self _ _ _
              · intro hkl
                exact hdisj k hkl (by simp)
            · exact Or.inl hmem2
          · right
            have hne : p.1 ≠ t.id := by
              rw [← hkt]
              intro hpk
              exact hnr (by simp [hpk])
            refine ⟨?_, fun hr => hnr (by simpa using Or.inr hr), hnl⟩
            rw [TStore.index_transactions, mapGet_mapSet_ne _ _ _ _ hne]
            exact hget
      | some m =>
          dsimp only
          have hmmem : m ∈ left.map Prod.snd := findBestTransaction_mem hfind
          rcases List.mem_map.mp hmmem with ⟨q, hq, hqm⟩
          have hmid : m.id ∈ left.map Prod.fst :=
            List.mem_map.mpr ⟨q, hq, by rw [hlwf q hq, hqm]⟩
          have hmergedid : (combine (mergeTransactions m t) t).id = m.id := by
            rw [hcomb, mergeTransactions_id]
          refine ih (store.saveMerged m (combine (mergeTransactions m t) t))
            (mapDelete left m.id) (mapDelete right t.id) hnodup'
            (fun p hp => hrwf p (List.mem_cons_of_mem _ hp))
            (fun p hp => hlwf p (mapDelete_subset hp))
            (fun k2 hk2 hk2r => ?_) ?_ ?_
          · have hk2l : k2 ∈ left.map Prod.fst :=
              (mapDelete_keys_sublist left m.id).subset hk2
            exact hdisj k2 hk2l (by simpa using Or.inr hk2r)
          · exact (mapDelete_keys_sublist right t.id).nodup hrnodup
          · intro p hp
            have hpr : p ∈ right := mapDelete_subset hp
            rcases hstored p hpr with hmem | ⟨hget, hnr, hnl⟩
            · rcases List.mem_cons.mp hmem with rfl | hmem2
              · exfalso
                rw [hkt] at hp
                exact not_mem_mapDelete_self hrnodup (hkt ▸ hp)
              · exact Or.inl hmem2
            · right
              have hne : p.1 ≠ (combine (mergeTransactions m t) t).id := by
                rw [hmergedid]
                intro hpm
                exact hnl (hpm ▸ hmid)
              refine ⟨?_, fun hr => hnr (by simpa using Or.inr hr),
                fun hl => hnl ((mapDelete_keys_sublist left m.id).subset hl)⟩
              rw [saveMerged_transactions, mapGet_mapSet_ne _ _ _ _ hne]
              exact hget

/-- C10: every transaction left in the right remainder of `merge` has been
created in the self store by the second pass even though it was absent
before the merge; consequently, when the feed importer's transfer fusion
raises its unmatched-transfer error, the returned state already contains
the unmatched transactions — the failing import is not atomic. -/
theorem merge_unmatched_not_atomic (pos neg : TStore)
    (hposwf : ∀ p ∈ pos.transactions, p.1 = p.2.id)
    (hnegwf : ∀ p ∈ neg.transactions, p.1 = p.2.id)
    (hnegnd : (neg.transactions.map Prod.fst).Nodup)
    (hdisj : ∀ k ∈ pos.transactions.map Prod.fst, k ∉ neg.transactions.map Prod.fst) :
    (∀ p ∈ (pos.merge neg (fun _ _ => true) combineDescriptions).2.2,
      mapGet (pos.merge neg (fun _ _ => true) combineDescriptions).1.transactions p.1 =
        some p.2 ∧
      mapGet pos.transactions p.1 = none) ∧
    ((pos.merge neg (fun _ _ => true) combineDescriptions).2.2 ≠ [] →
      (importFusion pos neg).2.isSome ∧
      (importFusion pos neg).1 =
        (pos.merge neg (fun _ _ => true) combineDescriptions).1) := by
  have hcomb : ∀ a b, (combineDescriptions a b).id = a.id := fun a b => rfl
  have hmergeEq : pos.merge neg (fun _ _ => true) combineDescriptions =
      (let r := mergePass1 (fun _ _ => true) combineDescriptions pos.transactions
        pos pos.transactions neg.transactions
       mergePass2 (fun _ _ => true) combineDescriptions r.2.2 r.1 r.2.1 r.2.2) := by
    unfold TStore.merge
    rfl
  obtain ⟨hl1, hr1, hr1sub⟩ := mergePass1_subsets (fun _ _ => true) combineDescriptions
    pos.transactions pos pos.transactions neg.transactions
  set P1 := mergePass1 (fun _ _ => true) combineDescriptions pos.transactions
    pos pos.transactions neg.transactions with hP1
  have hr1keys : ∀ k ∈ P1.2.2.map Prod.fst, k ∈ neg.transactions.map Prod.fst :=
    fun k hk => hr1sub.subset hk
  have hldisj : ∀ k ∈ P1.2.1.map Prod.fst, k ∉ P1.2.2.map Prod.fst := by
    intro k hk hkr
    rcases List.mem_map.mp hk with ⟨p, hp, hpk⟩
    have hppos : p ∈ pos.transactions := hl1 p hp
    have hkpos : k ∈ pos.transactions.map Prod.fst := List.mem_map.mpr ⟨p, hppos, hpk⟩
    exact hdisj k hkpos (hr1keys k hkr)
  have hspec := mergePass2_spec (fun _ _ => true) combineDescriptions hcomb
    P1.2.2 P1.1 P1.2.1 P1.2.2
    (hr1sub.nodup hnegnd)
    (fun p hp => hnegwf p (hr1 p hp))
    (fun p hp => hposwf p (hl1 p hp))
    hldisj
    (hr1sub.nodup hnegnd)
    (fun p hp => Or.inl hp)
  constructor
  · intro p hp
    have hp2 : p ∈ (mergePass2 (fun _ _ => true) combineDescriptions
        P1.2.2 P1.1 P1.2.1 P1.2.2).2.2 := by
      rw [hmergeEq] at hp
      exact hp
    refine ⟨?_, ?_⟩
    · rw [hmergeEq]
      exact hspec p hp2
    · have hpr1 : p ∈ P1.2.2 :=
        mergePass2_right_subset (fun _ _ => true) combineDescriptions
          P1.2.2 P1.1 P1.2.1 P1.2.2 p hp2
      have hkneg : p.1 ∈ neg.transactions.map Prod.fst :=
        List.mem_map.mpr ⟨p, hr1 p hpr1, rfl⟩
      apply mapGet_eq_none
      intro hkpos
      exact hdisj p.1 hkpos hkneg
  · intro hne
    unfold importFusion
    rcases hM : pos.merge neg (fun _ _ => true) combineDescriptions with ⟨sF, lF, rF⟩
    have hrF : rF ≠ [] := by
      intro hrf
      apply hne
      rw [hM, hrf]
    have hlen : ((lF.map Prod.snd) ++ (rF.map Prod.snd)).length ≠ 0 := by
      simp only [List.length_append, List.length_map]
      cases rF with
      | nil => exact absurd rfl hrF
      | cons q qs => simp
    dsimp only
    rw [if_pos hlen]
    exact ⟨rfl, rfl⟩

/-- Concrete unmatched negative-pool transaction for the C10 witness. -/
def c10T : Transaction :=
  ⟨100, none, ["trans_x"], "to savings", ⟨0, 9, 0⟩, 200, 1, 2, none, none, none⟩

/-- Concrete negative pool for the C10 witness. -/
def c10Neg : TStore := ⟨[(100, c10T)], [], [("trans_x", c10T)]⟩

/-- Witness for C10: with an empty positive pool, the lone negative
transaction is created in the store and reported unmatched, so the fusion
errors on an already-mutated store. -/
theorem merge_unmatched_not_atomic_witness :
    (∀ p ∈ (TStore.empty.merge c10Neg (fun _ _ => true) combineDescriptions).2.2,
      mapGet (TStore.empty.merge c10Neg (fun _ _ => true) combineDescriptions).1.transactions
          p.1 = some p.2 ∧
      mapGet TStore.empty.transactions p.1 = none) ∧
    ((TStore.empty.merge c10Neg (fun _ _ => true) combineDescriptions).2.2 ≠ [] →
      (importFusion TStore.empty c10Neg).2.isSome ∧
      (importFusion TStore.empty c10Neg).1 =
        (TStore.empty.merge c10Neg (fun _ _ => true) combineDescriptions).1) :=
  merge_unmatched_not_atomic TStore.empty c10Neg (by decide) (by decide)
    (by decide) (by decide)

end AkahuFirefly
